import Mathlib

/-!
Verification of the canvas graph-editing engine of the Arborator behavior-tree
editor against its natural-language specification.

The development shallowly embeds the TypeScript `CanvasManager` (and the export
logic of `src/main.ts`) in Lean.  JavaScript objects become structures, arrays
become lists, `Set`/`Map` become lists with explicit insertion semantics, and
object identity (`===`) is modelled by value equality (the theorems that need
it carry a hypothesis that node ids are unique, which makes the two coincide).
Optional / possibly-`null` fields become `Option`; JavaScript truthiness of a
string field (`undefined` and `""` are falsy) is made explicit.  `Math.random`
id generation is modelled by an explicit fresh-id supply `gen : Nat → String`.
Unbounded recursions of the source (descendant traversal, hidden-ancestor walk,
tree export) receive an explicit fuel argument; on the inputs where the source
terminates the fuel is irrelevant.

The repository contains two generations of the connection-commit handler:
`handleMouseUp` of `src/unnamed/part_004` (full validation, with the
root-bypass feature) and `handleMouseUp` of `src/unnamed/part_007` (only the
root-cardinality checks).  Both are embedded, as `commitConnection4` and
`commitConnection7`.
-/

/-- Primitive JavaScript values stored in config/blackboard maps.  The editor
only moves these around (defaults come from `getDefaultValueForType`), so an
opaque sum suffices. -/
inductive ConfigVal where
  | vInt (n : Int)
  | vStr (s : String)
  | vBool (b : Bool)
  | vNull
deriving Repr, DecidableEq

/-- Per-node config values: configGroupName ↦ (fieldName ↦ value), as an
insertion-ordered association list (JS object). `none` models `undefined`;
`some []` models the empty object (which is truthy in JS). -/
abbrev ConfigValues := List (String × List (String × ConfigVal))

/-- The `CanvasNode` interface of `src/unnamed/part_007`.  `type` is the
category (root / action / condition / control / decorator / blackboard) and
`name` the concrete behavior type; `name` is `Option` because the catalog's
root entry carries a null name (see the export scenario).  `collapsed` is
declared optional in the source and only ever read for truthiness, so it is a
plain `Bool` here (`none` ≍ `false`). -/
structure CanvasNode where
  id : String
  type : String
  name : Option String
  customName : Option String
  customType : Option String
  x : Int
  y : Int
  width : Int
  height : Int
  has_children : Bool
  configs : Option (List String)
  configValues : Option ConfigValues
  blackboardData : Option (List (String × ConfigVal))
  collapsed : Bool
  n_times : Option Int
  timelimit : Option Int
  child_key : Option String
deriving Repr, DecidableEq

/-- A connection stores its endpoints as whole node objects, exactly like the
source's `Connection` interface. -/
structure Connection where
  fromNode : CanvasNode
  toNode : CanvasNode
deriving Repr, DecidableEq

/-- The graph portion of the `CanvasManager` state: the node array, the
connection array and the used-custom-name set (`usedNames`, modelled as an
insertion-ordered duplicate-free list). -/
structure GraphState where
  nodes : List CanvasNode
  connections : List Connection
  usedNames : List String
deriving Repr, DecidableEq

/-- JavaScript truthiness of an optional string: `undefined` and `""` are
falsy. -/
def jsTruthy (o : Option String) : Bool := o.getD "" ≠ ""

/-- JS `Set.prototype.add`: append if not already present. -/
def setAdd (s : List String) (x : String) : List String :=
  if s.contains x then s else s ++ [x]

/-- CanvasManager.getNodeChildren: the `toNode`s of the connections leaving
`n`. -/
def getNodeChildren (g : GraphState) (n : CanvasNode) : List CanvasNode :=
  (g.connections.filter (fun c => c.fromNode == n)).map (·.toNode)

/-- CanvasManager.hasParent: does some connection end at `n`? -/
def hasParent (g : GraphState) (n : CanvasNode) : Bool :=
  g.connections.any (fun c => c.toNode == n)

/-- CanvasManager.getNodeChildCount. -/
def getNodeChildCount (g : GraphState) (n : CanvasNode) : Nat :=
  (g.connections.filter (fun c => c.fromNode == n)).length

/-- Number of connections whose `toNode` is `n` (the source checks
`hasParent`, which is this count being nonzero). -/
def parentCount (g : GraphState) (n : CanvasNode) : Nat :=
  (g.connections.filter (fun c => c.toNode == n)).length

/-- Number of blackboard-category children of `n`. -/
def blackboardChildCount (g : GraphState) (n : CanvasNode) : Nat :=
  (g.connections.filter
    (fun c => c.fromNode == n && c.toNode.type == "blackboard")).length

/-- Number of non-blackboard children of `n`. -/
def regularChildCount (g : GraphState) (n : CanvasNode) : Nat :=
  (g.connections.filter
    (fun c => c.fromNode == n && c.toNode.type != "blackboard")).length

/-- The section-3 connection invariants of the specification, stated for every
connection of the graph: single parent, decorator single child, root
cardinality (at most one blackboard and one regular child), and blackboard
nodes only as children of roots. -/
def ConnInv (g : GraphState) : Prop :=
  ∀ c ∈ g.connections,
    parentCount g c.toNode ≤ 1 ∧
    (c.fromNode.type = "decorator" → getNodeChildCount g c.fromNode ≤ 1) ∧
    (c.fromNode.type = "root" →
      blackboardChildCount g c.fromNode ≤ 1 ∧
      regularChildCount g c.fromNode ≤ 1) ∧
    (c.toNode.type = "blackboard" → c.fromNode.type = "root")

instance (g : GraphState) : Decidable (ConnInv g) := by
  unfold ConnInv; infer_instance

/-- Connection commit of `handleMouseUp` in `src/unnamed/part_007` (lines
708–776): the pointer went down on a connection point of `start` and up over
the top connection point of `node ≠ start`.  Only the root-cardinality rules
are checked; any other pair is connected unconditionally. -/
def commitConnection7 (g : GraphState) (start node : CanvasNode) : GraphState :=
  if node.type = "root" ∨ start.type = "root" then
    let rootNode := if node.type = "root" then node else start
    let targetNode := if node.type = "root" then start else node
    let existingConnections := g.connections.filter (fun c => c.fromNode == rootNode)
    if targetNode.type = "blackboard" then
      if existingConnections.any (fun c => c.toNode.type == "blackboard") then g
      else { g with connections := g.connections ++ [⟨start, node⟩] }
    else
      if existingConnections.any (fun c => c.toNode.type != "blackboard") then g
      else { g with connections := g.connections ++ [⟨start, node⟩] }
  else { g with connections := g.connections ++ [⟨start, node⟩] }

/-- The validation-and-push tail of `handleMouseUp` in `src/unnamed/part_004`
(lines 995–1034), shared by the bypass and non-bypass paths.  `node` is the
node the pointer was released on, `target` the node the connection will attach
to (they differ only after a root bypass). -/
def commitChecked (g : GraphState) (start node target : CanvasNode) : GraphState :=
  if hasParent g target then g
  else if start.type = "decorator" ∧ getNodeChildCount g start > 0 then g
  else if node.type = "blackboard" ∧ start.type ≠ "root" then g
  else if start.type = "root" ∧
      ((node.type = "blackboard" ∧
          (getNodeChildren g start).any (fun c => c.type == "blackboard")) ∨
        (node.type ≠ "blackboard" ∧
          (getNodeChildren g start).any (fun c => c.type != "blackboard"))) then g
  else { g with connections := g.connections ++ [⟨start, target⟩] }

/-- Connection commit of `handleMouseUp` in `src/unnamed/part_004` (lines
970–1035): releasing onto a root that already has a non-blackboard child
removes that root (and every connection touching it) and retargets the
connection at the root's first regular child; then the single-parent,
decorator, blackboard and root-cardinality checks run and, if they all pass,
the connection is pushed. -/
def commitConnection4 (g : GraphState) (start node : CanvasNode) : GraphState :=
  let bypass :=
    if node.type = "root" then
      (getNodeChildren g node).find? (fun c => c.type != "blackboard")
    else none
  match bypass with
  | some regularChild =>
      let g1 : GraphState :=
        { g with
          nodes := g.nodes.filter (fun n => n != node),
          connections := g.connections.filter
            (fun c => c.fromNode != node && c.toNode != node) }
      commitChecked g1 start node regularChild
  | none => commitChecked g start node node

/-- Graphs reachable in the `part_004` variant from the empty canvas by
placing nodes and committing interactively drawn connections. -/
inductive Reachable4 : GraphState → Prop where
  | empty : Reachable4 ⟨[], [], []⟩
  | addNode (g : GraphState) (n : CanvasNode) : Reachable4 g →
      Reachable4 ⟨g.nodes ++ [n], g.connections, g.usedNames⟩
  | connect (g : GraphState) (start node : CanvasNode) : Reachable4 g →
      start ∈ g.nodes → node ∈ g.nodes → node ≠ start →
      Reachable4 (commitConnection4 g start node)

/-- Graphs reachable in the `part_007` variant from the empty canvas by
placing nodes and committing interactively drawn connections. -/
inductive Reachable7 : GraphState → Prop where
  | empty : Reachable7 ⟨[], [], []⟩
  | addNode (g : GraphState) (n : CanvasNode) : Reachable7 g →
      Reachable7 ⟨g.nodes ++ [n], g.connections, g.usedNames⟩
  | connect (g : GraphState) (start node : CanvasNode) : Reachable7 g →
      start ∈ g.nodes → node ∈ g.nodes → node ≠ start →
      Reachable7 (commitConnection7 g start node)

theorem length_filter_append_single (p : Connection → Bool) (l : List Connection)
    (c : Connection) :
    ((l ++ [c]).filter p).length = (l.filter p).length + (if p c then 1 else 0) := by
  rw [List.filter_append]
  by_cases h : p c <;> simp [h]

theorem count_eq_zero_of_any_eq_false {p : Connection → Bool} {l : List Connection}
    (h : l.any p = false) : (l.filter p).length = 0 := by
  simp only [List.any_eq_false] at h
  simp [List.filter_eq_nil_iff.mpr h]

theorem parentCount_eq_zero_of_not_hasParent (g : GraphState) (n : CanvasNode)
    (h : hasParent g n = false) : parentCount g n = 0 :=
  count_eq_zero_of_any_eq_false h

theorem children_any_eq (g : GraphState) (s : CanvasNode) (p : CanvasNode → Bool) :
    (getNodeChildren g s).any p =
      g.connections.any (fun c => (c.fromNode == s) && p c.toNode) := by
  unfold getNodeChildren
  induction g.connections with
  | nil => rfl
  | cons a t ih =>
      by_cases h : a.fromNode == s <;>
        simp [List.filter_cons, h, List.any_cons, ih]

theorem length_filter_le_of_sub (p q : Connection → Bool) (l : List Connection) :
    ((l.filter q).filter p).length ≤ (l.filter p).length := by
  rw [List.filter_comm]
  exact List.length_filter_le _ _

theorem connInv_filter (g : GraphState) (ns : List CanvasNode)
    (q : Connection → Bool) (h : ConnInv g) :
    ConnInv ⟨ns, g.connections.filter q, g.usedNames⟩ := by
  intro c hc
  have hc' : c ∈ g.connections := List.mem_of_mem_filter hc
  obtain ⟨h1, h2, h3, h4⟩ := h c hc'
  refine ⟨?_, fun hd => ?_, fun hr => ⟨?_, ?_⟩, h4⟩
  · exact le_trans (length_filter_le_of_sub _ _ _) h1
  · exact le_trans (length_filter_le_of_sub _ _ _) (h2 hd)
  · exact le_trans (length_filter_le_of_sub _ _ _) (h3 hr).1
  · exact le_trans (length_filter_le_of_sub _ _ _) (h3 hr).2

theorem count_le_one_of_connInv_bb (g : GraphState) (s : CanvasNode)
    (hInv : ConnInv g) (hroot : s.type = "root") :
    blackboardChildCount g s ≤ 1 := by
  rcases Nat.eq_zero_or_pos (blackboardChildCount g s) with h0 | hpos
  · omega
  · obtain ⟨c, hc⟩ := List.exists_mem_of_length_pos hpos
    have hmem : c ∈ g.connections := List.mem_of_mem_filter hc
    have hpred := List.of_mem_filter hc
    have hfrom : c.fromNode = s := by
      have h1 := (Bool.and_eq_true _ _).mp hpred
      exact beq_iff_eq.mp h1.1
    obtain ⟨_, _, h3, _⟩ := hInv c hmem
    have hle := (h3 (by rw [hfrom]; exact hroot)).1
    rwa [hfrom] at hle

theorem count_le_one_of_connInv_reg (g : GraphState) (s : CanvasNode)
    (hInv : ConnInv g) (hroot : s.type = "root") :
    regularChildCount g s ≤ 1 := by
  rcases Nat.eq_zero_or_pos (regularChildCount g s) with h0 | hpos
  · omega
  · obtain ⟨c, hc⟩ := List.exists_mem_of_length_pos hpos
    have hmem : c ∈ g.connections := List.mem_of_mem_filter hc
    have hpred := List.of_mem_filter hc
    have hfrom : c.fromNode = s := by
      have h1 := (Bool.and_eq_true _ _).mp hpred
      exact beq_iff_eq.mp h1.1
    obtain ⟨_, _, h3, _⟩ := hInv c hmem
    have hle := (h3 (by rw [hfrom]; exact hroot)).2
    rwa [hfrom] at hle

theorem parentCount_append (g : GraphState) (start target m : CanvasNode) :
    parentCount { g with connections := g.connections ++ [⟨start, target⟩] } m =
      parentCount g m + (if target == m then 1 else 0) :=
  length_filter_append_single _ _ _

theorem childCount_append (g : GraphState) (start target m : CanvasNode) :
    getNodeChildCount { g with connections := g.connections ++ [⟨start, target⟩] } m =
      getNodeChildCount g m + (if start == m then 1 else 0) :=
  length_filter_append_single _ _ _

theorem bbCount_append (g : GraphState) (start target m : CanvasNode) :
    blackboardChildCount { g with connections := g.connections ++ [⟨start, target⟩] } m =
      blackboardChildCount g m +
        (if start == m && target.type == "blackboard" then 1 else 0) :=
  length_filter_append_single _ _ _

theorem regCount_append (g : GraphState) (start target m : CanvasNode) :
    regularChildCount { g with connections := g.connections ++ [⟨start, target⟩] } m =
      regularChildCount g m +
        (if start == m && target.type != "blackboard" then 1 else 0) :=
  length_filter_append_single _ _ _

theorem connInv_push (g : GraphState) (start node target : CanvasNode)
    (hInv : ConnInv g)
    (hP : hasParent g target = false)
    (hD : ¬(start.type = "decorator" ∧ 0 < getNodeChildCount g start))
    (hB : ¬(node.type = "blackboard" ∧ start.type ≠ "root"))
    (hR : ¬(start.type = "root" ∧
      ((node.type = "blackboard" ∧
          (getNodeChildren g start).any (fun c => c.type == "blackboard")) ∨
        (node.type ≠ "blackboard" ∧
          (getNodeChildren g start).any (fun c => c.type != "blackboard")))))
    (hbyp : target = node ∨ (node.type = "root" ∧ target.type ≠ "blackboard")) :
    ConnInv { g with connections := g.connections ++ [⟨start, target⟩] } := by
  have hP0 : parentCount g target = 0 := parentCount_eq_zero_of_not_hasParent g target hP
  have hDz : start.type = "decorator" → getNodeChildCount g start = 0 := by
    intro hd; by_contra hne
    exact hD ⟨hd, Nat.pos_of_ne_zero hne⟩
  have hBBz : start.type = "root" → node.type = "blackboard" →
      blackboardChildCount g start = 0 := by
    intro hs hn
    have hany : (getNodeChildren g start).any (fun c => c.type == "blackboard") = false := by
      by_contra hne
      exact hR ⟨hs, Or.inl ⟨hn, Bool.of_not_eq_false hne⟩⟩
    rw [children_any_eq] at hany
    exact count_eq_zero_of_any_eq_false hany
  have hRegz : start.type = "root" → node.type ≠ "blackboard" →
      regularChildCount g start = 0 := by
    intro hs hn
    have hany : (getNodeChildren g start).any (fun c => c.type != "blackboard") = false := by
      by_contra hne
      exact hR ⟨hs, Or.inr ⟨hn, Bool.of_not_eq_false hne⟩⟩
    rw [children_any_eq] at hany
    exact count_eq_zero_of_any_eq_false hany
  have htgtbb : target.type = "blackboard" → node.type = "blackboard" := by
    intro ht
    rcases hbyp with rfl | ⟨_, hne⟩
    · exact ht
    · exact absurd ht hne
  have htgtreg : target.type ≠ "blackboard" → node.type ≠ "blackboard" ∨ node.type = "root" := by
    intro ht
    rcases hbyp with rfl | ⟨hn, _⟩
    · exact Or.inl ht
    · exact Or.inr hn
  intro c hc
  rcases List.mem_append.mp hc with hcOld | hcNew
  · -- a pre-existing connection
    obtain ⟨h1, h2, h3, h4⟩ := hInv c hcOld
    refine ⟨?_, fun hd => ?_, fun hr => ⟨?_, ?_⟩, h4⟩
    · rw [parentCount_append]
      by_cases ht : target == c.toNode
      · exfalso
        have htEq : target = c.toNode := beq_iff_eq.mp ht
        have hmem : c ∈ g.connections.filter (fun x => x.toNode == target) :=
          List.mem_filter.mpr ⟨hcOld, by simp [htEq]⟩
        have hpos : 0 < parentCount g target := List.length_pos_of_mem hmem
        omega
      · simpa [ht] using h1
    · rw [childCount_append]
      by_cases hs : start == c.fromNode
      · have hsEq : start = c.fromNode := beq_iff_eq.mp hs
        have hz := hDz (hsEq ▸ hd)
        rw [← hsEq, hz]
        simp
      · simpa [hs] using h2 hd
    · rw [bbCount_append]
      by_cases hcond : start == c.fromNode && target.type == "blackboard"
      · have hsEq : start = c.fromNode := beq_iff_eq.mp ((Bool.and_eq_true _ _).mp hcond).1
        have htb : target.type = "blackboard" :=
          beq_iff_eq.mp ((Bool.and_eq_true _ _).mp hcond).2
        have hz := hBBz (hsEq ▸ hr) (htgtbb htb)
        rw [← hsEq, hz]
        simp [htb]
      · simpa [hcond] using (h3 hr).1
    · rw [regCount_append]
      by_cases hcond : start == c.fromNode && target.type != "blackboard"
      · have hsEq : start = c.fromNode := beq_iff_eq.mp ((Bool.and_eq_true _ _).mp hcond).1
        have htb : target.type ≠ "blackboard" := by
          have := ((Bool.and_eq_true _ _).mp hcond).2
          simpa [bne_iff_ne] using this
        have hnode : node.type ≠ "blackboard" := by
          rcases htgtreg htb with h | h
          · exact h
          · rw [h]; decide
        have hz := hRegz (hsEq ▸ hr) hnode
        rw [← hsEq, hz]
        simp [htb]
      · simpa [hcond] using (h3 hr).2
  · -- the freshly pushed connection
    have hcEq : c = ⟨start, target⟩ := List.mem_singleton.mp hcNew
    subst hcEq
    refine ⟨?_, fun hd => ?_, fun hr => ⟨?_, ?_⟩, fun hbb => ?_⟩
    · rw [parentCount_append]
      simp [hP0]
    · rw [childCount_append]
      simp [hDz hd]
    · rw [bbCount_append]
      by_cases htb : target.type = "blackboard"
      · rw [hBBz hr (htgtbb htb)]
        split <;> simp
      · have : (start == start && target.type == "blackboard") = false := by
          simp [htb]
        rw [this]
        simpa using count_le_one_of_connInv_bb g start hInv hr
    · rw [regCount_append]
      by_cases htb : target.type = "blackboard"
      · have : (start == start && target.type != "blackboard") = false := by
          simp [htb]
        rw [this]
        simpa using count_le_one_of_connInv_reg g start hInv hr
      · have hnode : node.type ≠ "blackboard" := by
          rcases htgtreg htb with h | h
          · exact h
          · rw [h]; decide
        rw [hRegz hr hnode]
        split <;> simp
    · -- the new connection's toNode is a blackboard: its fromNode must be a root
      have hnbb : node.type = "blackboard" := htgtbb hbb
      by_contra hsr
      exact hB ⟨hnbb, hsr⟩

theorem commitChecked_connInv (g : GraphState) (start node target : CanvasNode)
    (hInv : ConnInv g)
    (hbyp : target = node ∨ (node.type = "root" ∧ target.type ≠ "blackboard")) :
    ConnInv (commitChecked g start node target) := by
  unfold commitChecked
  split_ifs with h1 h2 h3 h4
  · exact hInv
  · exact hInv
  · exact hInv
  · exact hInv
  · exact connInv_push g start node target hInv (Bool.not_eq_true _ ▸ eq_false_of_ne_true h1)
      (by simpa using h2) h3 h4 hbyp

theorem commitConnection4_connInv (g : GraphState) (start node : CanvasNode)
    (hInv : ConnInv g) :
    ConnInv (commitConnection4 g start node) := by
  unfold commitConnection4
  by_cases hroot : node.type = "root"
  · simp only [hroot, if_true]
    cases hfind : (getNodeChildren g node).find? (fun c => c.type != "blackboard") with
    | none => exact commitChecked_connInv g start node node hInv (Or.inl rfl)
    | some child =>
        have hchild : child.type ≠ "blackboard" := by
          have := List.find?_some hfind
          simpa [bne_iff_ne] using this
        exact commitChecked_connInv _ start node child
          (connInv_filter g _ _ hInv) (Or.inr ⟨hroot, hchild⟩)
  · simp only [hroot, if_false]
    exact commitChecked_connInv g start node node hInv (Or.inl rfl)

/-- C1 (amended): in the `part_004` connection-commit variant, every graph
reachable from the empty canvas by node placement and interactive
connection-draw commits satisfies all section-3 connection invariants: no node
is the `toNode` of two connections, no decorator-category node is the
`fromNode` of two connections, every root-category node has at most one
blackboard child and at most one non-blackboard child, and every
blackboard-category child hangs under a root-category node.  (The `part_007`
variant does not enforce the first, second and fourth rules; see the
counterexample.) -/
theorem c1_reachable4_connection_invariants (g : GraphState)
    (h : Reachable4 g) : ConnInv g := by
  induction h with
  | empty => intro c hc; cases hc
  | addNode g n _ ih => exact fun c hc => ih c hc
  | connect g start node _ _ _ _ ih => exact commitConnection4_connInv g start node ih

def demoNodeA : CanvasNode :=
  ⟨"a", "control", some "Sequence", none, none, 0, 0, 150, 60, true,
    some [], some [], none, false, none, none, none⟩

def demoNodeB : CanvasNode :=
  ⟨"b", "control", some "Fallback", none, none, 200, 0, 150, 60, true,
    some [], some [], none, false, none, none, none⟩

def demoNodeC : CanvasNode :=
  ⟨"c", "action", some "GenerateAction", none, none, 100, 200, 150, 60, false,
    some [], some [], none, false, none, none, none⟩

/-- A graph the `part_007` editor reaches by placing three nodes and drawing
two connections onto the same target. -/
def c1BadGraph : GraphState :=
  commitConnection7
    (commitConnection7 ⟨(([] ++ [demoNodeA]) ++ [demoNodeB]) ++ [demoNodeC], [], []⟩
      demoNodeA demoNodeC)
    demoNodeB demoNodeC

/-- C1 (counterexample): in the `part_007` connection-commit variant, the
reachable graph `c1BadGraph` violates the section-3 invariants — node `c` ends
up as the `toNode` of two connections (two parents), because `handleMouseUp`
of `part_007` never checks the single-parent, decorator or blackboard rules. -/
theorem c1_counterexample : Reachable7 c1BadGraph ∧ ¬ ConnInv c1BadGraph := by
  constructor
  · exact Reachable7.connect _ demoNodeB demoNodeC
      (Reachable7.connect _ demoNodeA demoNodeC
        (Reachable7.addNode _ demoNodeC
          (Reachable7.addNode _ demoNodeB
            (Reachable7.addNode _ demoNodeA Reachable7.empty)))
        (by decide) (by decide) (by decide))
      (by decide) (by decide) (by decide)
  · decide

/-- Witness for the C1 theorem at a concrete reachable graph: connecting the
freshly placed Sequence node to the action node. -/
theorem c1_reachable4_connection_invariants_witness :
    ConnInv (commitConnection4 ⟨([] ++ [demoNodeA]) ++ [demoNodeC], [], []⟩
      demoNodeA demoNodeC) :=
  c1_reachable4_connection_invariants _
    (Reachable4.connect _ demoNodeA demoNodeC
      (Reachable4.addNode _ demoNodeC (Reachable4.addNode _ demoNodeA Reachable4.empty))
      (by decide) (by decide) (by decide))

theorem commitChecked_nodes (g : GraphState) (start node target : CanvasNode) :
    (commitChecked g start node target).nodes = g.nodes := by
  unfold commitChecked
  split_ifs <;> rfl

/-- C10: in the `part_004` connection-draw variant, releasing a drawn
connection onto a root node that already has a non-blackboard child removes
that root node itself and every connection touching it from the graph
(unconditionally), and — provided the child has no remaining parent, the
source is not a decorator that already has a child, and the source is not
itself a root with an existing regular child — connects the drawn
connection's source directly to the root's former child. -/
theorem c10_root_bypass (g : GraphState) (start node child : CanvasNode)
    (hroot : node.type = "root")
    (hchild : (getNodeChildren g node).find? (fun c => c.type != "blackboard") = some child) :
    (commitConnection4 g start node).nodes = g.nodes.filter (fun n => n != node) ∧
    (hasParent ⟨g.nodes.filter (fun n => n != node),
        g.connections.filter (fun c => c.fromNode != node && c.toNode != node),
        g.usedNames⟩ child = false →
      ¬(start.type = "decorator" ∧
        0 < getNodeChildCount ⟨g.nodes.filter (fun n => n != node),
          g.connections.filter (fun c => c.fromNode != node && c.toNode != node),
          g.usedNames⟩ start) →
      ¬(start.type = "root" ∧
        (getNodeChildren ⟨g.nodes.filter (fun n => n != node),
          g.connections.filter (fun c => c.fromNode != node && c.toNode != node),
          g.usedNames⟩ start).any (fun c => c.type != "blackboard") = true) →
      commitConnection4 g start node =
        ⟨g.nodes.filter (fun n => n != node),
          g.connections.filter (fun c => c.fromNode != node && c.toNode != node)
            ++ [⟨start, child⟩],
          g.usedNames⟩) := by
  have hbr : commitConnection4 g start node =
      commitChecked ⟨g.nodes.filter (fun n => n != node),
        g.connections.filter (fun c => c.fromNode != node && c.toNode != node),
        g.usedNames⟩ start node child := by
    unfold commitConnection4
    simp only [hroot, if_true, hchild]
  constructor
  · rw [hbr, commitChecked_nodes]
  · intro hP hD hR
    rw [hbr]
    unfold commitChecked
    rw [if_neg (by simp [hP]), if_neg hD, if_neg (by
        rintro ⟨hbb, _⟩
        rw [hroot] at hbb
        exact absurd hbb (by decide)),
      if_neg (by
        rintro ⟨hs, hdisj⟩
        rcases hdisj with ⟨hnbb, _⟩ | ⟨_, hany⟩
        · rw [hroot] at hnbb
          exact absurd hnbb (by decide)
        · exact hR ⟨hs, hany⟩)]

def demoRoot : CanvasNode :=
  ⟨"r", "root", none, none, none, 400, 300, 150, 60, true,
    some [], some [], none, false, none, none, none⟩

def c10Graph : GraphState :=
  ⟨[demoRoot, demoNodeC, demoNodeA], [⟨demoRoot, demoNodeC⟩], []⟩

/-- Witness for the C10 theorem: releasing a connection drawn from the
Sequence node onto a root whose only child is the action node removes the root
and rewires the Sequence node straight to the action node. -/
theorem c10_root_bypass_witness :
    (commitConnection4 c10Graph demoNodeA demoRoot).nodes =
      c10Graph.nodes.filter (fun n => n != demoRoot) ∧
    commitConnection4 c10Graph demoNodeA demoRoot =
      ⟨c10Graph.nodes.filter (fun n => n != demoRoot),
        c10Graph.connections.filter
          (fun c => c.fromNode != demoRoot && c.toNode != demoRoot)
          ++ [⟨demoNodeA, demoNodeC⟩],
        c10Graph.usedNames⟩ := by
  have h := c10_root_bypass c10Graph demoNodeA demoRoot demoNodeC
    (by decide) (by decide)
  exact ⟨h.1, h.2 (by decide) (by decide) (by decide)⟩

def MAX_UNDO_STACK_SIZE : Nat := 50

/-- The history-relevant part of the `CanvasManager` state (`part_007`): the
live graph, the two history stacks (list head = most recent entry; the source
pushes at the array's end and evicts with `shift` from its front), and the two
selection sets. -/
structure ManagerState where
  graph : GraphState
  undoStack : List GraphState
  redoStack : List GraphState
  selectedNodes : List CanvasNode
  selectedConnections : List Connection
deriving Repr, DecidableEq

/-- The node map built in `restoreState` by `Map.set` over the node array: a
later node with the same id overrides an earlier one. -/
def lookupById (nodes : List CanvasNode) (i : String) : Option CanvasNode :=
  nodes.reverse.find? (fun n => n.id == i)

/-- Reconnection of a snapshot's connections against the snapshot's own node
objects by id (`restoreState`).  The source uses `nodeMap.get(id)!`; the
non-null assertion is modelled by dropping a connection whose lookup fails,
which never happens under the `graphWF` hypothesis used by the theorems. -/
def restoreConnections (snap : GraphState) : List Connection :=
  snap.connections.filterMap (fun c =>
    match lookupById snap.nodes c.fromNode.id, lookupById snap.nodes c.toNode.id with
    | some f, some t => some (⟨f, t⟩ : Connection)
    | _, _ => none)

def restoreGraph (snap : GraphState) : GraphState :=
  ⟨snap.nodes, restoreConnections snap, snap.usedNames⟩

/-- CanvasManager.restoreState: install the snapshot's nodes and used names,
rebuild the connections against the restored node objects by id, and clear
both selections. -/
def restoreState (s : ManagerState) (snap : GraphState) : ManagerState :=
  ⟨restoreGraph snap, s.undoStack, s.redoStack, [], []⟩

/-- CanvasManager.saveState: push a deep copy of the current graph onto the
undo stack, clear the redo stack, and evict the oldest entry beyond the cap. -/
def saveState (s : ManagerState) : ManagerState :=
  { s with undoStack := (s.graph :: s.undoStack).take MAX_UNDO_STACK_SIZE,
           redoStack := [] }

/-- CanvasManager.undo: no-op on an empty stack; otherwise push a deep copy of
the current graph onto the redo stack, pop the most recent checkpoint and
restore it. -/
def undo (s : ManagerState) : ManagerState :=
  match s.undoStack with
  | [] => s
  | previousState :: rest =>
      restoreState { s with undoStack := rest, redoStack := s.graph :: s.redoStack }
        previousState

/-- CanvasManager.redo, the mirror of `undo`. -/
def redo (s : ManagerState) : ManagerState :=
  match s.redoStack with
  | [] => s
  | nextState :: rest =>
      restoreState { s with redoStack := rest, undoStack := s.graph :: s.undoStack }
        nextState

/-- A graph-mutating operation of the manager: `saveState()` immediately
followed by the mutation of the graph. -/
def applyMutation (m : GraphState → GraphState) (s : ManagerState) : ManagerState :=
  let s' := saveState s
  { s' with graph := m s'.graph }

def applyMutations (ms : List (GraphState → GraphState)) (s : ManagerState) :
    ManagerState :=
  ms.foldl (fun st m => applyMutation m st) s

def undoN : Nat → ManagerState → ManagerState
  | 0, s => s
  | n + 1, s => undoN n (undo s)

def redoN : Nat → ManagerState → ManagerState
  | 0, s => s
  | n + 1, s => redo (redoN n s)

/-- Well-formedness of a graph value: looking each connection endpoint up by
id among the nodes returns that very endpoint.  This is what object identity
guarantees in the running program (absent random id collisions). -/
def graphWF (g : GraphState) : Bool :=
  g.connections.all (fun c =>
    lookupById g.nodes c.fromNode.id == some c.fromNode &&
    lookupById g.nodes c.toNode.id == some c.toNode)

theorem filterMap_self {l : List Connection} (f : Connection → Option Connection)
    (h : ∀ c ∈ l, f c = some c) : l.filterMap f = l := by
  induction l with
  | nil => rfl
  | cons a t ih =>
      rw [List.filterMap_cons, h a (by simp)]
      rw [ih (fun c hc => h c (by simp [hc]))]

theorem restoreGraph_eq (g : GraphState) (h : graphWF g = true) :
    restoreGraph g = g := by
  unfold restoreGraph
  have hconn : restoreConnections g = g.connections := by
    unfold restoreConnections
    apply filterMap_self
    intro c hc
    unfold graphWF at h
    rw [List.all_eq_true] at h
    obtain ⟨hf, ht⟩ := (Bool.and_eq_true _ _).mp (h c hc)
    rw [beq_iff_eq.mp hf, beq_iff_eq.mp ht]
  rw [hconn]

def stacksAndGraph (s : ManagerState) :
    GraphState × List GraphState × List GraphState :=
  (s.graph, s.undoStack, s.redoStack)

theorem undo_nil (s : ManagerState) (h : s.undoStack = []) : undo s = s := by
  unfold undo
  rw [h]

theorem redo_nil (s : ManagerState) (h : s.redoStack = []) : redo s = s := by
  unfold redo
  rw [h]

theorem undo_cons (s : ManagerState) (prev : GraphState) (rest : List GraphState)
    (h : s.undoStack = prev :: rest) :
    undo s = ⟨restoreGraph prev, rest, s.graph :: s.redoStack, [], []⟩ := by
  unfold undo
  rw [h]
  rfl

theorem redo_cons (s : ManagerState) (next : GraphState) (rest : List GraphState)
    (h : s.redoStack = next :: rest) :
    redo s = ⟨restoreGraph next, s.graph :: s.undoStack, rest, [], []⟩ := by
  unfold redo
  rw [h]
  rfl

theorem redo_core_congr (x y : ManagerState)
    (h : stacksAndGraph x = stacksAndGraph y) :
    stacksAndGraph (redo x) = stacksAndGraph (redo y) := by
  have hg : x.graph = y.graph := congrArg (fun p => p.1) h
  have hu : x.undoStack = y.undoStack := congrArg (fun p => p.2.1) h
  have hr : x.redoStack = y.redoStack := congrArg (fun p => p.2.2) h
  cases hc : y.redoStack with
  | nil =>
      rw [redo_nil x (hr.trans hc), redo_nil y hc]
      exact h
  | cons a rest =>
      rw [redo_cons x a rest (hr.trans hc), redo_cons y a rest hc]
      unfold stacksAndGraph
      simp [hg, hu]

theorem redo_undo_core (s : ManagerState) (prev : GraphState) (rest : List GraphState)
    (hstack : s.undoStack = prev :: rest)
    (hWg : graphWF s.graph = true) (hWp : graphWF prev = true) :
    stacksAndGraph (redo (undo s)) = stacksAndGraph s := by
  rw [undo_cons s prev rest hstack]
  rw [redo_cons _ s.graph s.redoStack rfl]
  unfold stacksAndGraph
  simp [restoreGraph_eq _ hWg, restoreGraph_eq _ hWp, hstack]

theorem redoN_undoN_core (n : Nat) : ∀ t : ManagerState,
    n ≤ t.undoStack.length →
    (∀ g ∈ t.undoStack.take n, graphWF g = true) →
    graphWF t.graph = true →
    stacksAndGraph (redoN n (undoN n t)) = stacksAndGraph t := by
  induction n with
  | zero => intro t _ _ _; rfl
  | succ n ih =>
      intro t hlen htake hg
      cases hstack : t.undoStack with
      | nil => rw [hstack] at hlen; simp at hlen
      | cons prev rest =>
          have hWp : graphWF prev = true := by
            apply htake
            rw [hstack]
            simp [List.take_succ_cons]
          have hundo : undo t = ⟨restoreGraph prev, rest, t.graph :: t.redoStack, [], []⟩ :=
            undo_cons t prev rest hstack
          have hWu : graphWF (undo t).graph = true := by
            rw [hundo]
            simpa [restoreGraph_eq _ hWp] using hWp
          have hlen' : n ≤ (undo t).undoStack.length := by
            rw [hundo]
            rw [hstack] at hlen
            simpa using Nat.le_of_succ_le_succ hlen
          have htake' : ∀ g ∈ (undo t).undoStack.take n, graphWF g = true := by
            intro g hgmem
            apply htake
            rw [hstack]
            rw [hundo] at hgmem
            simp only [List.take_succ_cons, List.mem_cons]
            exact Or.inr hgmem
          have hinner := ih (undo t) hlen' htake' hWu
          show stacksAndGraph (redo (redoN n (undoN n (undo t)))) = stacksAndGraph t
          calc stacksAndGraph (redo (redoN n (undoN n (undo t))))
              = stacksAndGraph (redo (undo t)) := redo_core_congr _ _ hinner
            _ = stacksAndGraph t := redo_undo_core t prev rest hstack hg hWp

theorem applyMutations_WF (ms : List (GraphState → GraphState)) :
    ∀ s : ManagerState,
    (∀ m ∈ ms, ∀ g, graphWF g = true → graphWF (m g) = true) →
    graphWF s.graph = true → (∀ g ∈ s.undoStack, graphWF g = true) →
    graphWF (applyMutations ms s).graph = true ∧
      (∀ g ∈ (applyMutations ms s).undoStack, graphWF g = true) := by
  induction ms with
  | nil => intro s _ hg hu; exact ⟨hg, hu⟩
  | cons m ms ih =>
      intro s hms hg hu
      have h1 : graphWF (applyMutation m s).graph = true :=
        hms m (by simp) s.graph hg
      have h2 : ∀ g ∈ (applyMutation m s).undoStack, graphWF g = true := by
        intro g hmem
        have hmem' : g ∈ s.graph :: s.undoStack := List.take_subset _ _ hmem
        rcases List.mem_cons.mp hmem' with rfl | hmem''
        · exact hg
        · exact hu g hmem''
      exact ih (applyMutation m s) (fun m' hm' => hms m' (by simp [hm'])) h1 h2

theorem applyMutations_undo_length (ms : List (GraphState → GraphState)) :
    ∀ s : ManagerState,
    min (s.undoStack.length + ms.length) MAX_UNDO_STACK_SIZE ≤
      (applyMutations ms s).undoStack.length := by
  induction ms with
  | nil =>
      intro s
      show min (s.undoStack.length + 0) MAX_UNDO_STACK_SIZE ≤ s.undoStack.length
      omega
  | cons m ms ih =>
      intro s
      have h := ih (applyMutation m s)
      have hlen : (applyMutation m s).undoStack.length =
          min MAX_UNDO_STACK_SIZE (s.undoStack.length + 1) := by
        show ((s.graph :: s.undoStack).take MAX_UNDO_STACK_SIZE).length = _
        simp [List.length_take]
      rw [hlen] at h
      have hstep : applyMutations (m :: ms) s = applyMutations ms (applyMutation m s) := rfl
      rw [hstep]
      refine le_trans ?_ h
      simp only [List.length_cons]
      omega

/-- C3: undo and redo are exact inverses on the graph state (nodes,
connections, used-name set): `undo` is a no-op on an empty undo stack and
`redo` on an empty redo stack; for a state with a nonempty undo stack,
`redo (undo s)` restores the graph exactly and `undo` clears the selection
(restoring a checkpoint reconnects connections to the restored node objects by
id); and undoing N mutations then redoing N times restores the mutated state's
graph, for any sequence of at most the history cap of mutations.  The
well-formedness hypotheses state that by-id lookup finds each connection
endpoint, which is what object identity guarantees in the running program. -/
theorem c3_undo_redo_exact_inverses :
    (∀ s : ManagerState, s.undoStack = [] → undo s = s) ∧
    (∀ s : ManagerState, s.redoStack = [] → redo s = s) ∧
    (∀ s : ManagerState, graphWF s.graph = true →
      (∀ g ∈ s.undoStack, graphWF g = true) → s.undoStack ≠ [] →
      (redo (undo s)).graph = s.graph ∧
      (undo s).selectedNodes = [] ∧ (undo s).selectedConnections = []) ∧
    (∀ (s : ManagerState) (ms : List (GraphState → GraphState)),
      graphWF s.graph = true → (∀ g ∈ s.undoStack, graphWF g = true) →
      (∀ m ∈ ms, ∀ g, graphWF g = true → graphWF (m g) = true) →
      ms.length ≤ MAX_UNDO_STACK_SIZE →
      (redoN ms.length (undoN ms.length (applyMutations ms s))).graph =
        (applyMutations ms s).graph) := by
  refine ⟨fun s h => undo_nil s h, fun s h => redo_nil s h, ?_, ?_⟩
  · intro s hg hu hne
    cases hstack : s.undoStack with
    | nil => exact absurd hstack hne
    | cons prev rest =>
        have hWp := hu prev (by rw [hstack]; simp)
        have hcore := redo_undo_core s prev rest hstack hg hWp
        refine ⟨congrArg (fun p => p.1) hcore, ?_, ?_⟩
        · rw [undo_cons s prev rest hstack]
        · rw [undo_cons s prev rest hstack]
  · intro s ms hg hu hms hlen
    obtain ⟨hg', hu'⟩ := applyMutations_WF ms s hms hg hu
    have hlen' : ms.length ≤ (applyMutations ms s).undoStack.length := by
      have := applyMutations_undo_length ms s
      unfold MAX_UNDO_STACK_SIZE at *
      omega
    have htake : ∀ g ∈ (applyMutations ms s).undoStack.take ms.length,
        graphWF g = true :=
      fun g hmem => hu' g (List.take_subset _ _ hmem)
    exact congrArg (fun p => p.1)
      (redoN_undoN_core ms.length (applyMutations ms s) hlen' htake hg')

def c3State : ManagerState :=
  ⟨⟨[demoNodeC], [], []⟩, [⟨[], [], []⟩], [], [], []⟩

def c3Mutations : List (GraphState → GraphState) :=
  [fun _ => ⟨[demoNodeA], [], []⟩]

/-- Witness for the C3 theorem at a concrete state: one node on the canvas,
one checkpoint (the empty canvas) on the undo stack, plus a one-mutation
undo-all/redo-all round trip. -/
theorem c3_undo_redo_exact_inverses_witness :
    (redo (undo c3State)).graph = c3State.graph ∧
    (redoN 1 (undoN 1 (applyMutations c3Mutations c3State))).graph =
      (applyMutations c3Mutations c3State).graph := by
  constructor
  · exact (c3_undo_redo_exact_inverses.2.2.1 c3State (by decide) (by decide)
      (by decide)).1
  · exact c3_undo_redo_exact_inverses.2.2.2 c3State c3Mutations (by decide)
      (by decide)
      (by
        intro m hm g _
        have hmEq : m = fun _ => ⟨[demoNodeA], [], []⟩ := by
          simpa [c3Mutations] using hm
        subst hmEq
        show graphWF (⟨[demoNodeA], [], []⟩ : GraphState) = true
        decide)
      (by decide)

/-- Worklist of CanvasManager.getDescendantNodes: repeatedly pop a node,
enqueue its children (via `fromNode` connections) and record them in the
result set.  The source's recursion is unbounded; the fuel bounds the number
of worklist steps, and on the single-parent graphs the editor builds the
total number of enqueued nodes is at most the number of connections, so
`connections.length + 1` steps suffice.  JS `Set` insertion is modelled as
append-if-absent; the traversal order differs from the source's
pop-from-the-end order, which only affects the order of the resulting set. -/
def getDescendantNodesAux (g : GraphState) :
    Nat → List CanvasNode → List CanvasNode → List CanvasNode
  | 0, _, descendants => descendants
  | _ + 1, [], descendants => descendants
  | fuel + 1, current :: stack, descendants =>
      let children := (g.connections.filter (fun c => c.fromNode == current)).map (·.toNode)
      getDescendantNodesAux g fuel (stack ++ children)
        (children.foldl (fun d ch => if d.contains ch then d else d ++ [ch]) descendants)

def getDescendantNodes (g : GraphState) (n : CanvasNode) : List CanvasNode :=
  getDescendantNodesAux g (g.connections.length + 1) [n] []

/-- The pointer state relevant to a drag gesture (`part_007`): the manager,
the `isDragging` flag, the dragged node (an object reference, modelled by its
id) and the grab offset. -/
structure DragSession where
  mgr : ManagerState
  isDragging : Bool
  draggedNodeId : Option String
  dragOffsetX : Int
  dragOffsetY : Int
deriving Repr, DecidableEq

/-- The node-dragging branch of CanvasManager.handleMouseMove (`part_007`
lines 648–692) at canvas coordinates `(x, y)`.  If the dragged node is part of
the selection, all selected nodes and their descendant subtrees translate;
otherwise the dragged node and its descendants translate.  Afterwards the
source compares `newX`/`newY` against `this.draggedNode.x`/`.y` — but
`draggedNode` is a live reference whose coordinates were just updated to
exactly `newX`/`newY`, so the comparison is modelled by re-reading the node
from the mutated array. -/
def handleMouseMoveDrag (s : DragSession) (x y : Int) : DragSession :=
  if s.isDragging then
    match s.draggedNodeId with
    | none => s
    | some did =>
      match s.mgr.graph.nodes.find? (fun n => n.id == did) with
      | none => s
      | some draggedNode =>
        let newX := x - s.dragOffsetX
        let newY := y - s.dragOffsetY
        let g := s.mgr.graph
        let newNodes :=
          if s.mgr.selectedNodes.contains draggedNode then
            let deltaX := newX - draggedNode.x
            let deltaY := newY - draggedNode.y
            let nodesToMove := s.mgr.selectedNodes.foldl
              (fun acc n =>
                let acc1 := if acc.contains n then acc else acc ++ [n]
                if n.has_children then
                  (getDescendantNodes g n).foldl
                    (fun a d => if a.contains d then a else a ++ [d]) acc1
                else acc1) []
            g.nodes.map (fun n =>
              if nodesToMove.contains n then
                { n with x := n.x + deltaX, y := n.y + deltaY }
              else n)
          else
            let deltaX := newX - draggedNode.x
            let deltaY := newY - draggedNode.y
            let descendants :=
              if draggedNode.has_children then getDescendantNodes g draggedNode else []
            g.nodes.map (fun n =>
              if n == draggedNode then { n with x := newX, y := newY }
              else if descendants.contains n then
                { n with x := n.x + deltaX, y := n.y + deltaY }
              else n)
        let mgr1 := { s.mgr with graph := ⟨newNodes, g.connections, g.usedNames⟩ }
        let draggedAfter := (newNodes.find? (fun n => n.id == did)).getD draggedNode
        let mgr2 :=
          if newX ≠ draggedAfter.x ∨ newY ≠ draggedAfter.y then saveState mgr1 else mgr1
        { s with mgr := mgr2 }
  else s

def c4Session : DragSession :=
  ⟨⟨⟨[demoNodeC], [], []⟩, [], [], [], []⟩, true, some "c", 0, 0⟩

/-- C4: evaluating the drag branch of `handleMouseMove` at a concrete state —
one unselected node `c` at (100, 200), grabbed with zero offset and dragged to
(5, 7) — moves the node but pushes no undo snapshot: the first-movement
condition `newX !== draggedNode.x || newY !== draggedNode.y` reads the dragged
node's coordinates after they were already set to `newX`/`newY`, so
`saveState` is never reached during a drag, contradicting the claim (and the
source's own comment) that exactly one snapshot is captured on the first
actual movement. -/
theorem c4_drag_saves_no_snapshot :
    (handleMouseMoveDrag c4Session 5 7).mgr.graph.nodes.map (fun n => (n.x, n.y)) =
      [(5, 7)] ∧
    (handleMouseMoveDrag c4Session 5 7).mgr.undoStack = [] ∧
    c4Session.mgr.graph.nodes.map (fun n => (n.x, n.y)) = [(100, 200)] := by
  refine ⟨?_, ?_, ?_⟩ <;> decide

/-- A logical node of the persisted document (`serializeTree` output /
`loadTree` input).  Fields are optional where a JSON document may omit them;
`category` is the legacy field name consulted by `loadTree` for backward
compatibility. -/
structure LogicalNode where
  id : String
  type : Option String
  category : Option String
  name : Option String
  customName : Option String
  customType : Option String
  has_children : Bool
  configs : Option (List String)
  configValues : Option ConfigValues
  blackboardData : Option (List (String × ConfigVal))
  n_times : Option Int
  timelimit : Option Int
  child_key : Option String
deriving Repr, DecidableEq

structure DisplayNode where
  id : String
  x : Int
  y : Int
  width : Int
  height : Int
deriving Repr, DecidableEq

structure TransformState where
  scale : Int
  offsetX : Int
  offsetY : Int
deriving Repr, DecidableEq

structure LogicalConnection where
  fromNodeId : String
  toNodeId : String
deriving Repr, DecidableEq

/-- The persisted document of CanvasManager.serializeTree: logical nodes and
id-pair connections, plus per-node display geometry and the transform. -/
structure TreeDoc where
  nodes : List LogicalNode
  connections : List LogicalConnection
  displayNodes : List DisplayNode
  transform : Option TransformState
deriving Repr, DecidableEq

/-- CanvasManager.serializeTree (`part_007` lines 1175–1218).  The logical
node carries id, type, name, customName, customType, has_children, configs,
configValues, blackboardData, n_times and timelimit — the source serializes
the two decorator scalars `n_times` and `timelimit` but not `child_key` (and
not `collapsed`), hence `child_key := none` here. -/
def serializeTree (g : GraphState) (transform : TransformState) : TreeDoc :=
  { nodes := g.nodes.map (fun node =>
      { id := node.id
        type := some node.type
        category := none
        name := node.name
        customName := node.customName
        customType := node.customType
        has_children := node.has_children
        configs := node.configs
        configValues := node.configValues
        blackboardData := node.blackboardData
        n_times := node.n_times
        timelimit := node.timelimit
        child_key := none })
    connections := g.connections.map (fun c => ⟨c.fromNode.id, c.toNode.id⟩)
    displayNodes := g.nodes.map (fun n => ⟨n.id, n.x, n.y, n.width, n.height⟩)
    transform := some transform }

/-- Node rebuilding of `loadTree`/`addTree` for one logical entry: skip the
node if its display entry is missing, if both `type` and `category` are falsy,
or if both `name` and `type` are falsy; otherwise build the canvas node with a
freshly generated id (`Math.random`, modelled by `gen k` where `k` counts the
nodes loaded so far). -/
def nodeCategoryOf (ln : LogicalNode) : Option String :=
  if jsTruthy ln.type then ln.type else ln.category

def nodeNameOf (ln : LogicalNode) : Option String :=
  if jsTruthy ln.name then ln.name else ln.type

def mkLoadedNode (doc : TreeDoc) (gen : Nat → String) (k : Nat) (ln : LogicalNode) :
    Option CanvasNode :=
  match doc.displayNodes.find? (fun d => d.id == ln.id) with
  | none => none
  | some displayNode =>
      if jsTruthy (nodeCategoryOf ln) then
        if jsTruthy (nodeNameOf ln) then
          some
            { id := gen k
              type := (nodeCategoryOf ln).getD ""
              name := nodeNameOf ln
              customName := ln.customName
              customType := ln.customType
              x := displayNode.x
              y := displayNode.y
              width := displayNode.width
              height := displayNode.height
              has_children := ln.has_children
              configs := ln.configs
              configValues := ln.configValues
              blackboardData := some (ln.blackboardData.getD [])
              collapsed := false
              n_times := ln.n_times
              timelimit := ln.timelimit
              child_key := ln.child_key }
        else none
      else none

/-- The node-rebuilding loop shared verbatim by `loadTree` and `addTree`:
produces the (old id ↦ new node) association in document order. -/
def buildLoadedNodesAux (doc : TreeDoc) (gen : Nat → String) :
    List LogicalNode → Nat → List (String × CanvasNode)
  | [], _ => []
  | ln :: rest, k =>
      match mkLoadedNode doc gen k ln with
      | some node => (ln.id, node) :: buildLoadedNodesAux doc gen rest (k + 1)
      | none => buildLoadedNodesAux doc gen rest k

def buildLoadedNodes (doc : TreeDoc) (gen : Nat → String) :
    List (String × CanvasNode) :=
  buildLoadedNodesAux doc gen doc.nodes 0

/-- JS `Map` lookup over an insertion list where a later `set` with the same
key overrides an earlier one. -/
def mapLookupNode (m : List (String × CanvasNode)) (k : String) : Option CanvasNode :=
  (m.reverse.find? (fun p => p.1 == k)).map (·.2)

def mapLookupNat (m : List (String × Nat)) (k : String) : Option Nat :=
  (m.reverse.find? (fun p => p.1 == k)).map (·.2)

/-- Accumulator of the connection-replay loop of `loadTree`: the connections
built so far, the `nodeParents` map (keys only — the stored value is always
`true`) and the `decoratorChildCounts` map. -/
structure LoadConnState where
  conns : List Connection
  nodeParents : List String
  decoratorChildCounts : List (String × Nat)
deriving Repr, DecidableEq

/-- One iteration of the connection-replay loop of `loadTree` (`part_007`
lines 1286–1314): resolve both endpoints through the node map, skip the
connection if the target already has a parent or the source is a decorator
that already has a child, and otherwise record it. -/
def loadConnStep (nodeMap : List (String × CanvasNode)) (st : LoadConnState)
    (lc : LogicalConnection) : LoadConnState :=
  match mapLookupNode nodeMap lc.fromNodeId, mapLookupNode nodeMap lc.toNodeId with
  | some fromNode, some toNode =>
      if st.nodeParents.contains toNode.id then st
      else if fromNode.type = "decorator" then
        let childCount := (mapLookupNat st.decoratorChildCounts fromNode.id).getD 0
        if childCount > 0 then st
        else
          { conns := st.conns ++ [⟨fromNode, toNode⟩]
            nodeParents := st.nodeParents ++ [toNode.id]
            decoratorChildCounts := st.decoratorChildCounts ++ [(fromNode.id, childCount + 1)] }
      else
        { st with
          conns := st.conns ++ [⟨fromNode, toNode⟩]
          nodeParents := st.nodeParents ++ [toNode.id] }
  | _, _ => st

/-- CanvasManager.loadTree (`part_007` lines 1232–1326): clear the canvas,
rebuild the nodes (skipping defective entries, generating fresh ids,
registering custom names), then replay the connections through the
single-parent and decorator-single-child validation.  The restored transform
is not part of the graph state. -/
def loadTreeModel (doc : TreeDoc) (gen : Nat → String) : GraphState :=
  let nodeMap := buildLoadedNodes doc gen
  let nodes := nodeMap.map (·.2)
  let usedNames := nodes.foldl
    (fun u n => if jsTruthy n.customName then setAdd u (n.customName.getD "") else u) []
  let st := doc.connections.foldl (loadConnStep nodeMap) ⟨[], [], []⟩
  ⟨nodes, st.conns, usedNames⟩

/-- CanvasManager.findSuitablePosition: offset placing the new tree to the
right of the existing bounding box (below it when vertical centering would
overlap).  The source's `±Infinity` fold initialisers are modelled by folding
from the first element of each (nonempty) list; the float midpoint division is
modelled by integer division (not exercised by any theorem below). -/
def findSuitablePosition (g : GraphState) (nodes : List CanvasNode) : Int × Int :=
  match g.nodes with
  | [] => (0, 0)
  | gn :: grest =>
      let minX := grest.foldl (fun a n => min a n.x) gn.x
      let maxX := grest.foldl (fun a n => max a (n.x + n.width)) (gn.x + gn.width)
      let minY := grest.foldl (fun a n => min a n.y) gn.y
      let maxY := grest.foldl (fun a n => max a (n.y + n.height)) (gn.y + gn.height)
      match nodes with
      | [] => (0, 0)
      | n0 :: rest =>
          let newMinX := rest.foldl (fun a n => min a n.x) n0.x
          let newMinY := rest.foldl (fun a n => min a n.y) n0.y
          let newMaxY := rest.foldl (fun a n => max a (n.y + n.height)) (n0.y + n0.height)
          let _ := minX
          let padding : Int := 50
          let offsetX := maxX - newMinX + padding
          let offsetY0 := (maxY + minY) / 2 - (newMaxY + newMinY) / 2
          let newTopEdge := newMinY + offsetY0
          let newBottomEdge := newMaxY + offsetY0
          let offsetY :=
            if newTopEdge ≤ maxY ∧ newBottomEdge ≥ minY then maxY - newMinY + padding
            else offsetY0
          (offsetX, offsetY)

/-- CanvasManager.addTree (`part_007` lines 1428–1495): rebuild the nodes with
fresh ids exactly as `loadTree` does, offset them to a free position, append
them to the canvas, and then append every connection whose two endpoints
resolved — without any validation and without touching `usedNames`. -/
def addTreeModel (g : GraphState) (doc : TreeDoc) (gen : Nat → String) : GraphState :=
  let nodeMap := buildLoadedNodes doc gen
  let tempNodes := nodeMap.map (·.2)
  let offset := findSuitablePosition g tempNodes
  let movedMap := nodeMap.map
    (fun p => (p.1, { p.2 with x := p.2.x + offset.1, y := p.2.y + offset.2 }))
  let added := doc.connections.filterMap (fun lc =>
    match mapLookupNode movedMap lc.fromNodeId, mapLookupNode movedMap lc.toNodeId with
    | some fromNode, some toNode => some (⟨fromNode, toNode⟩ : Connection)
    | _, _ => none)
  ⟨g.nodes ++ movedMap.map (·.2), g.connections ++ added, g.usedNames⟩

def historyNode : CanvasNode :=
  ⟨"h", "decorator", some "History", none, none, 0, 0, 150, 60, true,
    some [], some [], none, false, none, none, some "velocity"⟩

def c2Graph : GraphState := ⟨[historyNode], [], []⟩

def defaultTransform : TransformState := ⟨1, 0, 0⟩

/-- A deterministic stand-in for the `Math.random` fresh-id supply. -/
def genF (k : Nat) : String := "f" ++ Nat.repr k

/-- C2: save followed by load loses the History decorator's `child_key`
scalar.  `serializeTree` writes `n_times` and `timelimit` into the logical
node but not `child_key`, so a graph holding a History decorator with
`child_key = "velocity"` round-trips to a node with no `child_key` (while the
category and type survive), contradicting the claim that all decorator
scalars are preserved. -/
theorem c2_roundtrip_loses_child_key :
    c2Graph.nodes.map (·.child_key) = [some "velocity"] ∧
    (loadTreeModel (serializeTree c2Graph defaultTransform) genF).nodes.map
      (·.child_key) = [none] ∧
    (loadTreeModel (serializeTree c2Graph defaultTransform) genF).nodes.map
      (·.type) = ["decorator"] ∧
    (loadTreeModel (serializeTree c2Graph defaultTransform) genF).nodes.map
      (·.name) = [some "History"] := by
  refine ⟨?_, ?_, ?_, ?_⟩ <;> decide

def parentCountById (g : GraphState) (i : String) : Nat :=
  (g.connections.filter (fun c => c.toNode.id == i)).length

def decoratorChildCountById (g : GraphState) (i : String) : Nat :=
  (g.connections.filter
    (fun c => c.fromNode.id == i && c.fromNode.type == "decorator")).length

theorem mapLookupNat_append (m : List (String × Nat)) (k : String) (v : Nat)
    (k' : String) :
    mapLookupNat (m ++ [(k, v)]) k' =
      if k = k' then some v else mapLookupNat m k' := by
  unfold mapLookupNat
  rw [List.reverse_append]
  by_cases h : k = k' <;> simp [List.find?_cons, h]

theorem mapLookupNode_mem (m : List (String × CanvasNode)) (k : String)
    (v : CanvasNode) (h : mapLookupNode m k = some v) : v ∈ m.map (·.2) := by
  unfold mapLookupNode at h
  cases hf : m.reverse.find? (fun p => p.1 == k) with
  | none => rw [hf] at h; cases h
  | some p =>
      rw [hf] at h
      have hp : p ∈ m.reverse := List.mem_of_find?_eq_some hf
      have hv : p.2 = v := by simpa using h
      rw [← hv]
      exact List.mem_map_of_mem _ (List.mem_reverse.mp hp)

theorem filter_length_le_one_of_nodup_map {l : List Connection}
    (f : Connection → String) (h : (l.map f).Nodup) (i : String) :
    (l.filter (fun c => f c == i)).length ≤ 1 := by
  induction l with
  | nil => simp
  | cons a t ih =>
      simp only [List.map_cons, List.nodup_cons] at h
      obtain ⟨hna, ht⟩ := h
      by_cases hai : (f a == i) = true
      · have hfa : f a = i := beq_iff_eq.mp hai
        rw [List.filter_cons, if_pos hai]
        simp only [List.length_cons]
        have hzero : (t.filter (fun c => f c == i)).length = 0 := by
          rw [List.length_eq_zero, List.filter_eq_nil_iff]
          intro c hc hfc
          apply hna
          have hcfa : f c = f a := (beq_iff_eq.mp hfc).trans hfa.symm
          rw [← hcfa]
          exact List.mem_map_of_mem f hc
        omega
      · rw [List.filter_cons, if_neg hai]
        exact ih ht

/-- The invariant maintained by the connection-replay loop of `loadTree`:
target ids are pairwise distinct and recorded in `nodeParents`, decorator
source ids are pairwise distinct with a positive recorded child count, and
every endpoint came out of the node map. -/
def LoadInv (nodeMap : List (String × CanvasNode)) (st : LoadConnState) : Prop :=
  (st.conns.map (fun c => c.toNode.id)).Nodup ∧
  (∀ c ∈ st.conns, c.toNode.id ∈ st.nodeParents) ∧
  ((st.conns.filter (fun c => c.fromNode.type == "decorator")).map
      (fun c => c.fromNode.id)).Nodup ∧
  (∀ c ∈ st.conns, c.fromNode.type = "decorator" →
    ∃ k, mapLookupNat st.decoratorChildCounts c.fromNode.id = some k ∧ 0 < k) ∧
  (∀ c ∈ st.conns, c.fromNode ∈ nodeMap.map (·.2) ∧ c.toNode ∈ nodeMap.map (·.2))

theorem loadConnStep_inv (nodeMap : List (String × CanvasNode))
    (st : LoadConnState) (lc : LogicalConnection) (h : LoadInv nodeMap st) :
    LoadInv nodeMap (loadConnStep nodeMap st lc) := by
  obtain ⟨h1, h2, h3, h4, h5⟩ := h
  unfold loadConnStep
  cases hf : mapLookupNode nodeMap lc.fromNodeId with
  | none => exact ⟨h1, h2, h3, h4, h5⟩
  | some fromNode =>
  cases ht : mapLookupNode nodeMap lc.toNodeId with
  | none => exact ⟨h1, h2, h3, h4, h5⟩
  | some toNode =>
  by_cases hpar : st.nodeParents.contains toNode.id
  · simp only [if_pos hpar]
    exact ⟨h1, h2, h3, h4, h5⟩
  · have hnotmem : toNode.id ∉ st.conns.map (fun c => c.toNode.id) := by
      intro hmem
      obtain ⟨c, hc, hcid⟩ := List.mem_map.mp hmem
      have hin : toNode.id ∈ st.nodeParents := hcid ▸ h2 c hc
      exact absurd (List.elem_eq_true_of_mem hin) (by simpa using hpar)
    have hnodup1 : ((st.conns ++ [(⟨fromNode, toNode⟩ : Connection)]).map
        (fun c => c.toNode.id)).Nodup := by
      rw [List.map_append]
      rw [List.nodup_append]
      exact ⟨h1, List.nodup_singleton _, by
        intro a ha hb
        simp only [List.map_cons, List.map_nil, List.mem_singleton] at hb
        exact absurd (hb ▸ ha) hnotmem⟩
    have hpar2 : ∀ c ∈ st.conns ++ [(⟨fromNode, toNode⟩ : Connection)],
        c.toNode.id ∈ st.nodeParents ++ [toNode.id] := by
      intro c hc
      rcases List.mem_append.mp hc with hold | hnew
      · exact List.mem_append_left _ (h2 c hold)
      · rw [List.mem_singleton.mp hnew]
        exact List.mem_append_right _ (by simp)
    have hmem2 : ∀ c ∈ st.conns ++ [(⟨fromNode, toNode⟩ : Connection)],
        c.fromNode ∈ nodeMap.map (·.2) ∧ c.toNode ∈ nodeMap.map (·.2) := by
      intro c hc
      rcases List.mem_append.mp hc with hold | hnew
      · exact h5 c hold
      · rw [List.mem_singleton.mp hnew]
        exact ⟨mapLookupNode_mem _ _ _ hf, mapLookupNode_mem _ _ _ ht⟩
    by_cases hdec : fromNode.type = "decorator"
    · by_cases hcnt : (mapLookupNat st.decoratorChildCounts fromNode.id).getD 0 > 0
      · simp only [if_neg hpar, if_pos hdec, if_pos hcnt]
        exact ⟨h1, h2, h3, h4, h5⟩
      · have hcnt0 : (mapLookupNat st.decoratorChildCounts fromNode.id).getD 0 = 0 := by
          omega
        simp only [if_neg hpar, if_pos hdec, if_neg hcnt]
        refine ⟨hnodup1, hpar2, ?_, ?_, hmem2⟩
        · rw [List.filter_append]
          have hsing : ([(⟨fromNode, toNode⟩ : Connection)].filter
              (fun c => c.fromNode.type == "decorator")) = [⟨fromNode, toNode⟩] := by
            simp [hdec]
          rw [hsing, List.map_append, List.nodup_append]
          refine ⟨h3, List.nodup_singleton _, ?_⟩
          intro a ha hb
          simp only [List.map_cons, List.map_nil, List.mem_singleton] at hb
          subst hb
          obtain ⟨c, hc, hcid⟩ := List.mem_map.mp ha
          have hcmem : c ∈ st.conns := List.mem_of_mem_filter hc
          have hcdec : c.fromNode.type = "decorator" := by
            have := List.of_mem_filter hc
            exact beq_iff_eq.mp this
          obtain ⟨k, hk, hkpos⟩ := h4 c hcmem hcdec
          rw [hcid] at hk
          rw [hk] at hcnt0
          simp at hcnt0
          omega
        · intro c hc hcdec
          rcases List.mem_append.mp hc with hold | hnew
          · obtain ⟨k, hk, hkpos⟩ := h4 c hold hcdec
            refine ⟨k, ?_, hkpos⟩
            rw [mapLookupNat_append]
            have hne : fromNode.id ≠ c.fromNode.id := by
              intro heq
              rw [← heq] at hk
              rw [hk] at hcnt0
              simp at hcnt0
              omega
            rw [if_neg hne]
            exact hk
          · rw [List.mem_singleton.mp hnew]
            refine ⟨(mapLookupNat st.decoratorChildCounts fromNode.id).getD 0 + 1, ?_, by omega⟩
            show mapLookupNat (st.decoratorChildCounts ++
              [(fromNode.id, (mapLookupNat st.decoratorChildCounts fromNode.id).getD 0 + 1)])
              fromNode.id = _
            rw [mapLookupNat_append, if_pos rfl]
    · simp only [if_neg hpar, if_neg hdec]
      refine ⟨hnodup1, hpar2, ?_, ?_, hmem2⟩
      · rw [List.filter_append]
        have hsing : ([(⟨fromNode, toNode⟩ : Connection)].filter
            (fun c => c.fromNode.type == "decorator")) = [] := by
          simp [hdec]
        rw [hsing, List.append_nil]
        exact h3
      · intro c hc hcdec
        rcases List.mem_append.mp hc with hold | hnew
        · exact h4 c hold hcdec
        · rw [List.mem_singleton.mp hnew] at hcdec
          exact absurd hcdec hdec

theorem foldl_loadConnStep_inv (nodeMap : List (String × CanvasNode))
    (lcs : List LogicalConnection) :
    ∀ st, LoadInv nodeMap st → LoadInv nodeMap (lcs.foldl (loadConnStep nodeMap) st) := by
  induction lcs with
  | nil => intro st h; exact h
  | cons lc rest ih => intro st h; exact ih _ (loadConnStep_inv _ _ _ h)

theorem loadInv_init (nodeMap : List (String × CanvasNode)) :
    LoadInv nodeMap ⟨[], [], []⟩ := by
  refine ⟨?_, ?_, ?_, ?_, ?_⟩ <;> simp [LoadInv]

/-- C5 (amended): `loadTree` replays its saved connections through the
single-parent and decorator-single-child validation, skipping each offending
entry (nodes with a missing display entry or missing category/type-name are
skipped during node rebuilding, connections with a dangling endpoint are
dropped), so for every input document — however malformed — the loaded graph
has at most one parent per node id, at most one child per decorator id, and no
dangling connection endpoints; the result is the greedy (first-come) maximal
valid subset of the file's connections, and the embedding is total, so these
malformed entries never raise.  `addTree`, by contrast, replays connections
without any validation (see the counterexample), and neither path re-checks
the root-cardinality or blackboard rules. -/
theorem c5_loadTree_skips_invalid_connections (doc : TreeDoc) (gen : Nat → String) :
    (∀ i : String, parentCountById (loadTreeModel doc gen) i ≤ 1) ∧
    (∀ i : String, decoratorChildCountById (loadTreeModel doc gen) i ≤ 1) ∧
    (∀ c ∈ (loadTreeModel doc gen).connections,
      c.fromNode ∈ (loadTreeModel doc gen).nodes ∧
      c.toNode ∈ (loadTreeModel doc gen).nodes) := by
  have hinv := foldl_loadConnStep_inv (buildLoadedNodes doc gen) doc.connections
    ⟨[], [], []⟩ (loadInv_init _)
  obtain ⟨h1, h2, h3, h4, h5⟩ := hinv
  refine ⟨?_, ?_, ?_⟩
  · intro i
    exact filter_length_le_one_of_nodup_map (fun c => c.toNode.id) h1 i
  · intro i
    show ((loadTreeModel doc gen).connections.filter
      (fun c => c.fromNode.id == i && c.fromNode.type == "decorator")).length ≤ 1
    rw [← List.filter_filter]
    exact filter_length_le_one_of_nodup_map (fun c => c.fromNode.id) h3 i
  · intro c hc
    exact h5 c hc

def c5LogicalNode (i cat ty : String) : LogicalNode :=
  ⟨i, some cat, none, some ty, none, none, true, some [], some [], none, none, none, none⟩

/-- A document whose connection list gives the action node two parents. -/
def c5Doc : TreeDoc :=
  { nodes := [c5LogicalNode "p1" "control" "Sequence",
              c5LogicalNode "p2" "control" "Fallback",
              c5LogicalNode "ch" "action" "GenerateAction"]
    connections := [⟨"p1", "ch"⟩, ⟨"p2", "ch"⟩]
    displayNodes := [⟨"p1", 0, 0, 150, 60⟩, ⟨"p2", 200, 0, 150, 60⟩,
                     ⟨"ch", 100, 200, 150, 60⟩]
    transform := none }

/-- C5 (counterexample): importing `c5Doc` onto an empty canvas through
`addTree` replays *no* validation — the loaded action node (fresh id `f2`)
ends up with two parents — while `loadTree` on the same document keeps only
the first of the two conflicting connections.  This refutes the claim that
`addTree` replays connections through the interactive-drawing validation. -/
theorem c5_counterexample :
    c5Doc.connections.map (·.toNodeId) = ["ch", "ch"] ∧
    parentCountById (addTreeModel ⟨[], [], []⟩ c5Doc genF) "f2" = 2 ∧
    parentCountById (loadTreeModel c5Doc genF) "f2" = 1 := by
  refine ⟨?_, ?_, ?_⟩ <;> decide

/-- The clipboard payload of `getSelectedNodesData`: node snapshots (their ids
are discarded) and connections as index pairs into the node list. -/
structure PasteData where
  nodes : List CanvasNode
  connections : List (Nat × Nat)
deriving Repr, DecidableEq

/-- CanvasManager.pasteNodes (`part_007` lines 2092–2123): every pasted node
gets a freshly generated id and a (+20, +20) offset — custom names are copied
verbatim and `usedNames` is left untouched — and the recorded index-pair
connections are recreated between the pasted nodes. -/
def pasteNodes (g : GraphState) (data : PasteData) (gen : Nat → String) : GraphState :=
  let newNodes := data.nodes.enum.map
    (fun p => { p.2 with id := gen p.1, x := p.2.x + 20, y := p.2.y + 20 })
  let pastedConns := data.connections.filterMap (fun ij =>
    match newNodes.get? ij.1, newNodes.get? ij.2 with
    | some f, some t => some (⟨f, t⟩ : Connection)
    | _, _ => none)
  ⟨g.nodes ++ newNodes, g.connections ++ pastedConns, g.usedNames⟩

theorem buildLoadedNodesAux_ids (doc : TreeDoc) (gen : Nat → String) :
    ∀ (lns : List LogicalNode) (k : Nat),
    (buildLoadedNodesAux doc gen lns k).map (fun p => p.2.id) =
      (List.range' k (buildLoadedNodesAux doc gen lns k).length).map gen := by
  intro lns
  induction lns with
  | nil => intro k; rfl
  | cons ln rest ih =>
      intro k
      unfold buildLoadedNodesAux
      cases hmk : mkLoadedNode doc gen k ln with
      | none => exact ih k
      | some node =>
          have hid : node.id = gen k := by
            unfold mkLoadedNode at hmk
            split at hmk
            · cases hmk
            · split_ifs at hmk
              rw [← Option.some.inj hmk]
          simp only [List.map_cons, List.length_cons, ih (k + 1), hid]
          rw [List.range'_succ]
          simp

theorem map_snd_id_moved (m : List (String × CanvasNode)) (dx dy : Int) :
    (m.map (fun p => (p.1, { p.2 with x := p.2.x + dx, y := p.2.y + dy }))).map
      (fun q => q.2.id) = m.map (fun p => p.2.id) := by
  induction m with
  | nil => rfl
  | cons a t ih => simp only [List.map_cons, ih]

/-- C6 (amended): fresh node ids are generated not only by `addTree` but also
by a straight `loadTree` — both run the identical rebuilding loop that assigns
`Math.random` ids in load order, so no original id survives a load — and
`pasteNodes` regenerates ids as well. -/
theorem c6_load_and_paste_regenerate_ids (doc : TreeDoc) (g : GraphState)
    (data : PasteData) (gen : Nat → String) :
    ((loadTreeModel doc gen).nodes.map (fun n => n.id) =
      (List.range (loadTreeModel doc gen).nodes.length).map gen) ∧
    ((addTreeModel g doc gen).nodes.map (fun n => n.id) =
      g.nodes.map (fun n => n.id) ++
        (List.range (buildLoadedNodes doc gen).length).map gen) ∧
    ((pasteNodes g data gen).nodes.map (fun n => n.id) =
      g.nodes.map (fun n => n.id) ++ (List.range data.nodes.length).map gen) := by
  have hbuild := buildLoadedNodesAux_ids doc gen doc.nodes 0
  have hlen0 : (loadTreeModel doc gen).nodes.length = (buildLoadedNodes doc gen).length := by
    show ((buildLoadedNodes doc gen).map (·.2)).length = _
    rw [List.length_map]
  refine ⟨?_, ?_, ?_⟩
  · have hmm : (loadTreeModel doc gen).nodes.map (fun n => n.id) =
        (buildLoadedNodes doc gen).map (fun p => p.2.id) := by
      show ((buildLoadedNodes doc gen).map (·.2)).map (fun n => n.id) = _
      rw [List.map_map]
      rfl
    rw [hmm, hlen0, List.range_eq_range']
    exact hbuild
  · have hnodes : (addTreeModel g doc gen).nodes.map (fun n => n.id) =
        g.nodes.map (fun n => n.id) ++ (buildLoadedNodes doc gen).map (fun p => p.2.id) := by
      show (g.nodes ++ _).map (fun n => n.id) = _
      rw [List.map_append]
      congr 1
      rw [List.map_map]
      exact map_snd_id_moved (buildLoadedNodes doc gen) _ _
    rw [hnodes, List.range_eq_range']
    congr 1
  · have hnodes : (pasteNodes g data gen).nodes.map (fun n => n.id) =
        g.nodes.map (fun n => n.id) ++ data.nodes.enum.map (fun p => gen p.1) := by
      show (g.nodes ++ _).map (fun n => n.id) = _
      rw [List.map_append]
      congr 1
      rw [List.map_map]
      rfl
    rw [hnodes]
    congr 1
    have henum : data.nodes.enum.map (fun p => gen p.1) =
        (data.nodes.enum.map Prod.fst).map gen := by
      rw [List.map_map]
      rfl
    rw [henum, List.enum_map_fst]

/-- A document with a single node whose saved id is `orig`. -/
def c6Doc : TreeDoc :=
  { nodes := [c5LogicalNode "orig" "action" "GenerateAction"]
    connections := []
    displayNodes := [⟨"orig", 10, 20, 150, 60⟩]
    transform := none }

/-- C6 (counterexample): a straight `loadTree` does not preserve the saved
node id — the comment in the source reads "Generate new ID to avoid
conflicts" and the rebuilt node's id comes from the fresh-id supply, not from
the document. -/
theorem c6_counterexample :
    c6Doc.nodes.map (fun n => n.id) = ["orig"] ∧
    (loadTreeModel c6Doc genF).nodes.map (fun n => n.id) = ["f0"] := by
  refine ⟨?_, ?_⟩ <;> decide

/-- JSON values, with objects as insertion-ordered key/value lists — the order
`JSON.stringify` would emit. -/
inductive Json where
  | null : Json
  | str (s : String) : Json
  | num (n : Int) : Json
  | bool (b : Bool) : Json
  | arr (xs : List Json) : Json
  | obj (kvs : List (String × Json)) : Json
deriving Repr

def ConfigVal.toJson : ConfigVal → Json
  | .vInt n => .num n
  | .vStr s => .str s
  | .vBool b => .bool b
  | .vNull => .null

/-- The filter `node.configs && node.configs.length > 0 && node.configValues`
of the export handlers (an empty array is truthy but fails the length test;
an empty object is truthy). -/
def nodesWithConfigs (g : GraphState) : List CanvasNode :=
  g.nodes.filter (fun node =>
    node.configs.isSome && decide (0 < (node.configs.getD []).length) &&
      node.configValues.isSome)

/-- The config-hoisting pass of the Export Trees handler (`src/main.ts` lines
318–339): every config group of every node with config values receives a
freshly generated random id (`cfgGen`, counting ids in emission order); the
first component is the shared `configs` table in insertion order, the second
the per-node configType ↦ configId mapping. -/
def buildConfigMaps (g : GraphState) (cfgGen : Nat → String) :
    List (String × Json) × List (String × List (String × String)) :=
  let step := fun (acc : List (String × Json) ×
      List (String × List (String × String)) × Nat) (node : CanvasNode) =>
    match node.configValues with
    | some cvs =>
        let res := cvs.foldl
          (fun (a : List (String × Json) × List (String × String) × Nat) entry =>
            let configId := cfgGen a.2.2
            (a.1 ++ [(configId, Json.obj
                [("type", Json.str entry.1),
                 ("values", Json.obj (entry.2.map (fun kv => (kv.1, kv.2.toJson))))])],
             a.2.1 ++ [(entry.1, configId)],
             a.2.2 + 1))
          (acc.1, [], acc.2.2)
        (res.1, acc.2.1 ++ [(node.id, res.2.1)], res.2.2)
    | none => acc
  let fin := (nodesWithConfigs g).foldl step ([], [], 0)
  (fin.1, fin.2.1)

def mapLookupStrList (m : List (String × List (String × String))) (k : String) :
    Option (List (String × String)) :=
  (m.reverse.find? (fun p => p.1 == k)).map (·.2)

/-- Stable ascending insertion by `x`, modelling the stable JS
`children.sort((a, b) => a.x - b.x)`. -/
def insertByX (n : CanvasNode) : List CanvasNode → List CanvasNode
  | [] => [n]
  | m :: rest => if n.x < m.x then n :: m :: rest else m :: insertByX n rest

def sortByX (l : List CanvasNode) : List CanvasNode :=
  l.foldl (fun acc n => insertByX n acc) []

/-- createTreeStructure of the Export Trees menu handler (`src/main.ts` lines
345–387): key insertion order is category, type (with `History` renamed to
`BlackboardHistory`; a null type name exports as JSON null), custom_name?,
custom_type?, n_times?, timelimit?, child_key?, blackboard (root only,
`null` when no blackboard child), configs?, children? (sorted by ascending x,
blackboard children excluded).  The source recursion is bounded by the tree
height; `fuel` makes it total. -/
def createTreeStructure (g : GraphState)
    (nodeConfigMap : List (String × List (String × String))) :
    Nat → CanvasNode → Json
  | 0, _ => Json.null
  | fuel + 1, node =>
      let base := [("category", Json.str node.type),
        ("type", match node.name with
          | some nm => Json.str (if nm = "History" then "BlackboardHistory" else nm)
          | none => Json.null)]
      let customNamePart :=
        if jsTruthy node.customName then
          [("custom_name", Json.str (node.customName.getD ""))] else []
      let customTypePart :=
        if jsTruthy node.customType then
          [("custom_type", Json.str (node.customType.getD ""))] else []
      let nTimesPart :=
        if (node.name == some "Repeat" || node.name == some "Retry") &&
            node.n_times.isSome then
          [("n_times", Json.num (node.n_times.getD 0))] else []
      let timelimitPart :=
        if node.name == some "Timeout" && node.timelimit.isSome then
          [("timelimit", Json.num (node.timelimit.getD 0))] else []
      let childKeyPart :=
        if node.name == some "History" && node.child_key.isSome then
          [("child_key", Json.str (node.child_key.getD ""))] else []
      let blackboardPart :=
        if node.type = "root" then
          match (getNodeChildren g node).find? (fun child => child.type == "blackboard") with
          | some blackboardNode =>
              [("blackboard", Json.str
                (if jsTruthy blackboardNode.customName then
                  blackboardNode.customName.getD "" else "default"))]
          | none => [("blackboard", Json.null)]
        else []
      let configsPart :=
        match mapLookupStrList nodeConfigMap node.id with
        | some configMapping =>
            [("configs", Json.obj (configMapping.map (fun p => (p.1, Json.str p.2))))]
        | none => []
      let children := sortByX ((getNodeChildren g node).filter
        (fun child => child.type != "blackboard"))
      let childrenPart :=
        if children.length > 0 then
          [("children", Json.arr (children.map
            (fun child => createTreeStructure g nodeConfigMap fuel child)))]
        else []
      Json.obj (base ++ customNamePart ++ customTypePart ++ nTimesPart ++
        timelimitPart ++ childKeyPart ++ blackboardPart ++ configsPart ++ childrenPart)

/-- The Export Trees document (`src/main.ts` lines 312–417): one named tree
per root-category node (`customName` or `tree_N`), a shared `configs` table,
and no `blackboards` key. -/
def exportTrees (g : GraphState) (cfgGen : Nat → String) : Json :=
  let maps := buildConfigMaps g cfgGen
  let rootNodes := g.nodes.filter (fun node => node.type == "root")
  let trees := rootNodes.enum.map (fun p =>
    ((if jsTruthy p.2.customName then p.2.customName.getD ""
      else "tree_" ++ Nat.repr (p.1 + 1)),
     createTreeStructure g maps.2 (g.nodes.length + 1) p.2))
  Json.obj [("configs", Json.obj maps.1), ("trees", Json.obj trees)]

/-- The action node of the export scenario read as a *type* named `A1` (no
custom name). -/
def a1Node : CanvasNode :=
  ⟨"a1", "action", some "A1", none, none, 100, 500, 150, 60, false,
    some [], some [], none, false, none, none, none⟩

/-- The export scenario as the amended claim reads it: an unnamed root (the
catalog root entry carries a null type name — modelled from the spec, since
`nodeTypes.json` is not among the sources — which is what makes the exported
root's `type` JSON null), a Sequence control node, and an action node whose
type name is `A1`. -/
def c7Graph : GraphState :=
  ⟨[demoRoot, demoNodeA, a1Node],
   [⟨demoRoot, demoNodeA⟩, ⟨demoNodeA, a1Node⟩], []⟩

/-- The exact document the claim (spec §8 scenario) expects. -/
def c7ClaimedJson : Json :=
  Json.obj [("configs", Json.obj []),
    ("trees", Json.obj [("tree_1", Json.obj
      [("category", Json.str "root"), ("type", Json.null), ("blackboard", Json.null),
       ("children", Json.arr [Json.obj
         [("category", Json.str "control"), ("type", Json.str "Sequence"),
          ("children", Json.arr [Json.obj
            [("category", Json.str "action"), ("type", Json.str "A1")]])]])])])]

/-- C7 (amended): for the three-node scenario graph — unnamed root (null type
name), Sequence control child, action child whose *type name* is `A1`, no
blackboard, no config values — Export Trees produces exactly the claimed
document: `blackboards` omitted, the tree keyed `tree_1` because the root has
no custom name, and children emitted in ascending x order. -/
theorem c7_export_scenario (cfgGen : Nat → String) :
    exportTrees c7Graph cfgGen = c7ClaimedJson := by
  rfl

/-- The action node as the claim literally states it: *custom name* `A1` on a
built-in action type. -/
def a1CustomNode : CanvasNode :=
  ⟨"a1", "action", some "GenerateAction", some "A1", none, 100, 500, 150, 60, false,
    some [], some [], none, false, none, none, none⟩

def c7BadGraph : GraphState :=
  ⟨[demoRoot, demoNodeA, a1CustomNode],
   [⟨demoRoot, demoNodeA⟩, ⟨demoNodeA, a1CustomNode⟩], ["A1"]⟩

/-- C7 (counterexample): when the action node carries `A1` as its *custom
name* (as the claim states), the export writes the node's type name into
`type` and adds a `custom_name` key, so the produced document is not the
claimed one. -/
theorem c7_counterexample :
    exportTrees c7BadGraph genF =
      Json.obj [("configs", Json.obj []),
        ("trees", Json.obj [("tree_1", Json.obj
          [("category", Json.str "root"), ("type", Json.null),
           ("blackboard", Json.null),
           ("children", Json.arr [Json.obj
             [("category", Json.str "control"), ("type", Json.str "Sequence"),
              ("children", Json.arr [Json.obj
                [("category", Json.str "action"), ("type", Json.str "GenerateAction"),
                 ("custom_name", Json.str "A1")]])]])])])] ∧
    exportTrees c7BadGraph genF ≠ c7ClaimedJson := by
  constructor
  · rfl
  · intro h
    rw [show exportTrees c7BadGraph genF =
      Json.obj [("configs", Json.obj []),
        ("trees", Json.obj [("tree_1", Json.obj
          [("category", Json.str "root"), ("type", Json.null),
           ("blackboard", Json.null),
           ("children", Json.arr [Json.obj
             [("category", Json.str "control"), ("type", Json.str "Sequence"),
              ("children", Json.arr [Json.obj
                [("category", Json.str "action"), ("type", Json.str "GenerateAction"),
                 ("custom_name", Json.str "A1")]])]])])])] from rfl] at h
    unfold c7ClaimedJson at h
    simp at h

/-- CanvasManager.getNodeAtPosition (`part_007` lines 470–479): iterate the
node array from its end (topmost drawn last) and return the first node whose
axis-aligned box contains the point.  There is no hidden-node filtering
here. -/
def getNodeAtPosition (g : GraphState) (x y : Int) : Option CanvasNode :=
  g.nodes.reverse.find? (fun node =>
    decide (node.x ≤ x) && decide (x ≤ node.x + node.width) &&
    decide (node.y ≤ y) && decide (y ≤ node.y + node.height))

/-- CanvasManager.isNodeHidden (`part_007` lines 1672–1680): a node is hidden
when its (first) parent connection leads to a collapsed node or to a hidden
one.  The source recursion walks the first-parent chain; `fuel` makes it
total, and on inputs where the source terminates the chain is shorter than
`connections.length + 1`. -/
def isNodeHiddenF (g : GraphState) : Nat → CanvasNode → Bool
  | 0, _ => false
  | fuel + 1, node =>
      match g.connections.find? (fun c => c.toNode == node) with
      | some parentConnection =>
          parentConnection.fromNode.collapsed ||
            isNodeHiddenF g fuel parentConnection.fromNode
      | none => false

def isNodeHidden (g : GraphState) (node : CanvasNode) : Bool :=
  isNodeHiddenF g (g.connections.length + 1) node

/-- The first-parent step the hidden walk follows. -/
def parentOf (g : GraphState) (n : CanvasNode) : Option CanvasNode :=
  (g.connections.find? (fun c => c.toNode == n)).map (·.fromNode)

/-- The k-th strict ancestor along the first-parent chain (`some n` at 0). -/
def ancestorIter (g : GraphState) : Nat → CanvasNode → Option CanvasNode
  | 0, n => some n
  | k + 1, n =>
      match parentOf g n with
      | some p => ancestorIter g k p
      | none => none

/-- CanvasManager.handleDoubleClick (`part_007` lines 1659–1670): toggle
`collapsed` on the clicked node when it has children.  The source mutates the
found object in place; the map toggles every value-equal copy, which
coincides with the source whenever node values are distinct. -/
def handleDoubleClick (g : GraphState) (x y : Int) : GraphState :=
  match getNodeAtPosition g x y with
  | some node =>
      if node.has_children then
        { g with nodes := g.nodes.map (fun m =>
            if m == node then { m with collapsed := !m.collapsed } else m) }
      else g
  | none => g

/-- CanvasManager.selectAll (`part_007` lines 1939–1959): select every
non-hidden node and every connection with two non-hidden endpoints. -/
def selectAll (g : GraphState) : List CanvasNode × List Connection :=
  (g.nodes.filter (fun n => !(isNodeHidden g n)),
   g.connections.filter (fun c =>
     !(isNodeHidden g c.fromNode) && !(isNodeHidden g c.toNode)))

theorem ancestorIter_succ_eq (g : GraphState) (k : Nat) (n p : CanvasNode)
    (h : parentOf g n = some p) :
    ancestorIter g (k + 1) n = ancestorIter g k p := by
  show (match parentOf g n with
    | some q => ancestorIter g k q
    | none => none) = ancestorIter g k p
  rw [h]

theorem ancestorIter_succ_none (g : GraphState) (k : Nat) (n : CanvasNode)
    (h : parentOf g n = none) :
    ancestorIter g (k + 1) n = none := by
  show (match parentOf g n with
    | some q => ancestorIter g k q
    | none => none) = none
  rw [h]

theorem isNodeHiddenF_iff (g : GraphState) :
    ∀ (fuel : Nat) (n : CanvasNode), ancestorIter g fuel n = none →
    (isNodeHiddenF g fuel n = true ↔
      ∃ k, k < fuel ∧ ∃ a, ancestorIter g (k + 1) n = some a ∧ a.collapsed = true) := by
  intro fuel
  induction fuel with
  | zero =>
      intro n h
      exact absurd h (by simp [ancestorIter])
  | succ fuel ih =>
      intro n h
      unfold isNodeHiddenF
      cases hf : g.connections.find? (fun c => c.toNode == n) with
      | none =>
          have hpar : parentOf g n = none := by
            unfold parentOf
            rw [hf]
            rfl
          constructor
          · intro hfalse; cases hfalse
          · rintro ⟨k, hk, a, ha, hc⟩
            rw [ancestorIter_succ_none g k n hpar] at ha
            cases ha
      | some pc =>
          have hpar : parentOf g n = some pc.fromNode := by
            unfold parentOf
            rw [hf]
            rfl
          have hnext : ancestorIter g fuel pc.fromNode = none := by
            rw [← ancestorIter_succ_eq g fuel n pc.fromNode hpar]
            exact h
          have hIH := ih pc.fromNode hnext
          constructor
          · intro hl
            by_cases hcol : pc.fromNode.collapsed = true
            · refine ⟨0, by omega, pc.fromNode, ?_, hcol⟩
              rw [ancestorIter_succ_eq g 0 n pc.fromNode hpar]
              rfl
            · have hrec : isNodeHiddenF g fuel pc.fromNode = true := by
                simpa [hcol] using hl
              obtain ⟨k, hk, a, ha, hc⟩ := hIH.mp hrec
              refine ⟨k + 1, by omega, a, ?_, hc⟩
              rw [ancestorIter_succ_eq g (k + 1) n pc.fromNode hpar]
              exact ha
          · rintro ⟨k, hk, a, ha, hc⟩
            cases k with
            | zero =>
                rw [ancestorIter_succ_eq g 0 n pc.fromNode hpar] at ha
                have haeq : pc.fromNode = a := Option.some.inj ha
                have hcol : pc.fromNode.collapsed = true := haeq ▸ hc
                simp [hcol]
            | succ j =>
                rw [ancestorIter_succ_eq g (j + 1) n pc.fromNode hpar] at ha
                have hrec := hIH.mpr ⟨j, by omega, a, ha, hc⟩
                simp [hrec]

/-- C8 (amended): double-clicking a node with `has_children` toggles its
`collapsed` flag; a node is hidden exactly when some strict ancestor along
its first-parent chain is collapsed (for chains that terminate within the
fuel, as every chain the source can finish does); and hidden nodes are
excluded from select-all (as they are from rendering) — but `getNodeAtPosition`
performs no hidden-node filtering, so hit-testing can still return a node
whose ancestor is collapsed (see the counterexample). -/
theorem c8_collapse_hides_rendering_not_hit_testing :
    (∀ (g : GraphState) (x y : Int) (n : CanvasNode),
      getNodeAtPosition g x y = some n → n.has_children = true →
      handleDoubleClick g x y = { g with nodes := g.nodes.map (fun m =>
        if m == n then { m with collapsed := !m.collapsed } else m) }) ∧
    (∀ (g : GraphState) (n : CanvasNode),
      ancestorIter g (g.connections.length + 1) n = none →
      (isNodeHidden g n = true ↔
        ∃ k, k < g.connections.length + 1 ∧ ∃ a,
          ancestorIter g (k + 1) n = some a ∧ a.collapsed = true)) ∧
    (∀ g : GraphState, ∀ n ∈ (selectAll g).1, isNodeHidden g n = false) := by
  refine ⟨?_, ?_, ?_⟩
  · intro g x y n hfind hchild
    unfold handleDoubleClick
    rw [hfind]
    simp only [if_pos hchild]
  · intro g n h
    exact isNodeHiddenF_iff g (g.connections.length + 1) n h
  · intro g n hn
    have := List.of_mem_filter hn
    simpa using this

def collapsedParent : CanvasNode :=
  ⟨"p", "control", some "Sequence", none, none, 0, 0, 150, 60, true,
    some [], some [], none, true, none, none, none⟩

def hiddenChild : CanvasNode :=
  ⟨"hc", "action", some "GenerateAction", none, none, 0, 200, 150, 60, false,
    some [], some [], none, false, none, none, none⟩

def c8Graph : GraphState :=
  ⟨[collapsedParent, hiddenChild], [⟨collapsedParent, hiddenChild⟩], []⟩

/-- C8 (counterexample): the child of a collapsed parent is hidden, yet
`getNodeAtPosition` still returns it for a point inside its box — hit-testing
does not exclude hidden nodes, contradicting the claim. -/
theorem c8_counterexample :
    isNodeHidden c8Graph hiddenChild = true ∧
    getNodeAtPosition c8Graph 10 210 = some hiddenChild := by
  refine ⟨?_, ?_⟩ <;> decide

/-- Witness for the C8 theorem at the concrete two-node graph: double-clicking
the parent toggles it, the hidden child satisfies the ancestor
characterization, and select-all picks no hidden node. -/
theorem c8_collapse_hides_rendering_not_hit_testing_witness :
    (handleDoubleClick c8Graph 10 30 = { c8Graph with nodes :=
      (c8Graph.nodes.map (fun m =>
        if m == collapsedParent then { m with collapsed := !m.collapsed } else m)) }) ∧
    (isNodeHidden c8Graph hiddenChild = true ↔
      ∃ k, k < c8Graph.connections.length + 1 ∧ ∃ a,
        ancestorIter c8Graph (k + 1) hiddenChild = some a ∧ a.collapsed = true) ∧
    (∀ n ∈ (selectAll c8Graph).1, isNodeHidden c8Graph n = false) :=
  ⟨c8_collapse_hides_rendering_not_hit_testing.1 c8Graph 10 30 collapsedParent
      (by decide) (by decide),
   c8_collapse_hides_rendering_not_hit_testing.2.1 c8Graph hiddenChild (by decide),
   c8_collapse_hides_rendering_not_hit_testing.2.2 c8Graph⟩

/-! ### C9: custom-name uniqueness across rename / duplicate / paste / clone

The `usedNames` set of the manager tracks the non-empty custom names in use.
`updateNodeCustomName` (`part_007` lines 1067–1163) validates a rename against
the built-in catalog names and `usedNames` before committing;
`handleKeyDown`'s duplicate branch (lines 889–942) derives a fresh
`_copy`/`_copy_N` name for every duplicated node that carries a custom name;
`cloneSubtree` (lines 1864–1909) blanks the clones' custom names.  The
supporting development below first proves that decimal `Nat.repr` is
injective, which makes the candidate names of the duplicate loop pairwise
distinct and its fresh-name search succeed within `usedNames.length + 1`
steps. -/

/-- Peeling `Nat.toDigitsCore` off its accumulator: with enough fuel the
accumulator is simply appended to the digits of `n`. -/
theorem toDigitsCore_append (n : Nat) : ∀ (fuel : Nat) (acc : List Char), n < fuel →
    Nat.toDigitsCore 10 fuel n acc = Nat.toDigitsCore 10 (n + 1) n [] ++ acc := by
  induction n using Nat.strong_induction_on with
  | _ n ih =>
    intro fuel acc hfuel
    match fuel, hfuel with
    | fuel + 1, hfuel =>
      by_cases hdiv : n / 10 = 0
      · show (if n / 10 = 0 then Nat.digitChar (n % 10) :: acc
              else Nat.toDigitsCore 10 fuel (n / 10) (Nat.digitChar (n % 10) :: acc)) = _
        rw [if_pos hdiv]
        show _ = (if n / 10 = 0 then [Nat.digitChar (n % 10)]
              else Nat.toDigitsCore 10 n (n / 10) [Nat.digitChar (n % 10)]) ++ acc
        rw [if_pos hdiv]
        rfl
      · have hlt : n / 10 < n := Nat.div_lt_self (by omega) (by omega)
        have hfl : n / 10 < fuel := by omega
        show (if n / 10 = 0 then Nat.digitChar (n % 10) :: acc
              else Nat.toDigitsCore 10 fuel (n / 10) (Nat.digitChar (n % 10) :: acc)) = _
        rw [if_neg hdiv, ih (n / 10) hlt fuel _ hfl]
        show _ = (if n / 10 = 0 then [Nat.digitChar (n % 10)]
              else Nat.toDigitsCore 10 n (n / 10) [Nat.digitChar (n % 10)]) ++ acc
        rw [if_neg hdiv, ih (n / 10) hlt n _ (by omega)]
        simp

theorem digitVal_digitChar (d : Nat) (h : d < 10) :
    (Nat.digitChar d).toNat - 48 = d := by
  interval_cases d <;> decide

def decimalValue (cs : List Char) : Nat :=
  cs.foldl (fun a c => a * 10 + (c.toNat - 48)) 0

theorem decimalValue_toDigits : ∀ n : Nat, decimalValue (Nat.toDigits 10 n) = n := by
  intro n
  induction n using Nat.strong_induction_on with
  | _ n ih =>
    by_cases hdiv : n / 10 = 0
    · show decimalValue (Nat.toDigitsCore 10 (n + 1) n []) = n
      have : Nat.toDigitsCore 10 (n + 1) n [] = [Nat.digitChar (n % 10)] := by
        show (if n / 10 = 0 then [Nat.digitChar (n % 10)]
              else Nat.toDigitsCore 10 n (n / 10) [Nat.digitChar (n % 10)]) = _
        rw [if_pos hdiv]
      rw [this]
      show 0 * 10 + ((Nat.digitChar (n % 10)).toNat - 48) = n
      rw [digitVal_digitChar _ (Nat.mod_lt _ (by omega))]
      omega
    · have hlt : n / 10 < n := Nat.div_lt_self (by omega) (by omega)
      show decimalValue (Nat.toDigitsCore 10 (n + 1) n []) = n
      have step : Nat.toDigitsCore 10 (n + 1) n [] =
          Nat.toDigits 10 (n / 10) ++ [Nat.digitChar (n % 10)] := by
        show (if n / 10 = 0 then [Nat.digitChar (n % 10)]
              else Nat.toDigitsCore 10 n (n / 10) [Nat.digitChar (n % 10)]) = _
        rw [if_neg hdiv, toDigitsCore_append (n / 10) n _ (by omega)]
        rfl
      rw [step]
      unfold decimalValue
      rw [List.foldl_append]
      show decimalValue (Nat.toDigits 10 (n / 10)) * 10 + ((Nat.digitChar (n % 10)).toNat - 48) = n
      rw [ih (n / 10) hlt, digitVal_digitChar _ (Nat.mod_lt _ (by omega))]
      omega

theorem natRepr_injective {m n : Nat} (h : Nat.repr m = Nat.repr n) : m = n := by
  have hdata : Nat.toDigits 10 m = Nat.toDigits 10 n := by
    have := congrArg String.data h
    simpa [Nat.repr, List.asString] using this
  have := congrArg decimalValue hdata
  simpa [decimalValue_toDigits] using this

theorem natRepr_length_pos (n : Nat) : 0 < (Nat.repr n).length := by
  show 0 < (Nat.toDigits 10 n).asString.length
  show 0 < (Nat.toDigits 10 n).length
  cases hd : Nat.toDigits 10 n with
  | cons c cs => simp
  | nil =>
    exfalso
    have hval := decimalValue_toDigits n
    rw [hd] at hval
    have hn0 : n = 0 := by simpa [decimalValue] using hval.symm
    rw [hn0] at hd
    exact absurd hd (by decide)

/-- Candidate names tried by the duplicate loop of `handleKeyDown` (`part_007`
lines 907–912): `base_copy` first, then `base_copy_1`, `base_copy_2`, …. -/
def copyCandidate (base : String) : Nat → String
  | 0 => base ++ "_copy"
  | Nat.succ k => base ++ "_copy_" ++ Nat.repr (k + 1)

theorem copyCandidate_injective (base : String) {i j : Nat}
    (h : copyCandidate base i = copyCandidate base j) : i = j := by
  match i, j with
  | 0, 0 => rfl
  | 0, Nat.succ j' =>
    exfalso
    have hlen : (base ++ "_copy").length = ((base ++ "_copy_") ++ Nat.repr (j' + 1)).length :=
      congrArg String.length h
    rw [String.length_append, String.length_append, String.length_append] at hlen
    have h5 : ("_copy" : String).length = 5 := rfl
    have h6 : ("_copy_" : String).length = 6 := rfl
    have := natRepr_length_pos (j' + 1)
    omega
  | Nat.succ i', 0 =>
    exfalso
    have hlen : ((base ++ "_copy_") ++ Nat.repr (i' + 1)).length = (base ++ "_copy").length :=
      congrArg String.length h
    rw [String.length_append, String.length_append, String.length_append] at hlen
    have h5 : ("_copy" : String).length = 5 := rfl
    have h6 : ("_copy_" : String).length = 6 := rfl
    have := natRepr_length_pos (i' + 1)
    omega
  | Nat.succ i', Nat.succ j' =>
    have hdata : ((base ++ "_copy_") ++ Nat.repr (i' + 1)).data
        = ((base ++ "_copy_") ++ Nat.repr (j' + 1)).data := congrArg String.data h
    rw [String.data_append, String.data_append] at hdata
    have hrepr : (Nat.repr (i' + 1)).data = (Nat.repr (j' + 1)).data :=
      List.append_cancel_left hdata
    have := natRepr_injective (String.ext hrepr)
    omega

theorem copyCandidate_ne_empty (base : String) (i : Nat) : copyCandidate base i ≠ "" := by
  intro h
  match i with
  | 0 =>
    have hlen : (base ++ "_copy").length = ("" : String).length := congrArg String.length h
    rw [String.length_append] at hlen
    have h5 : ("_copy" : String).length = 5 := rfl
    have h0 : ("" : String).length = 0 := rfl
    omega
  | Nat.succ k =>
    have hlen : ((base ++ "_copy_") ++ Nat.repr (k + 1)).length = ("" : String).length :=
      congrArg String.length h
    rw [String.length_append, String.length_append] at hlen
    have h6 : ("_copy_" : String).length = 6 := rfl
    have h0 : ("" : String).length = 0 := rfl
    have := natRepr_length_pos (k + 1)
    omega

/-- The fresh-name search loop of the duplicate branch, with explicit fuel:
try `copyCandidate base counter`, advancing while the candidate is taken.
(The JS `while` loop needs no fuel; `genCopyName_not_mem` shows
`usedNames.length + 1` steps always suffice.) -/
def genCopyNameAux (used : List String) (base : String) : Nat → Nat → String
  | 0, counter => copyCandidate base counter
  | fuel + 1, counter =>
    if used.contains (copyCandidate base counter) then
      genCopyNameAux used base fuel (counter + 1)
    else copyCandidate base counter

def genCopyName (used : List String) (base : String) : String :=
  genCopyNameAux used base (used.length + 1) 0

theorem genCopyNameAux_shape (used : List String) (base : String) :
    ∀ (fuel counter : Nat), ∃ i : Nat, genCopyNameAux used base fuel counter = copyCandidate base i := by
  intro fuel
  induction fuel with
  | zero => intro counter; exact ⟨counter, rfl⟩
  | succ fuel ih =>
    intro counter
    by_cases hc : used.contains (copyCandidate base counter) = true
    · rcases ih (counter + 1) with ⟨i, hi⟩
      refine ⟨i, ?_⟩
      show (if used.contains (copyCandidate base counter) then
          genCopyNameAux used base fuel (counter + 1)
        else copyCandidate base counter) = copyCandidate base i
      rw [if_pos hc]
      exact hi
    · refine ⟨counter, ?_⟩
      show (if used.contains (copyCandidate base counter) then
          genCopyNameAux used base fuel (counter + 1)
        else copyCandidate base counter) = copyCandidate base counter
      rw [if_neg hc]

theorem genCopyNameAux_spec (used : List String) (base : String) :
    ∀ (fuel counter : Nat),
      genCopyNameAux used base fuel counter ∉ used ∨
      (∀ i : Nat, i < fuel → copyCandidate base (counter + i) ∈ used) := by
  intro fuel
  induction fuel with
  | zero => intro counter; right; intro i hi; omega
  | succ fuel ih =>
    intro counter
    by_cases hc : used.contains (copyCandidate base counter) = true
    · rcases ih (counter + 1) with h | h
      · left
        show (if used.contains (copyCandidate base counter) then
            genCopyNameAux used base fuel (counter + 1)
          else copyCandidate base counter) ∉ used
        rw [if_pos hc]
        exact h
      · right
        intro i hi
        match i with
        | 0 => simpa using List.mem_of_elem_eq_true hc
        | Nat.succ i' =>
          have := h i' (by omega)
          have harith : counter + 1 + i' = counter + (i' + 1) := by omega
          rwa [harith] at this
    · left
      show (if used.contains (copyCandidate base counter) then
          genCopyNameAux used base fuel (counter + 1)
        else copyCandidate base counter) ∉ used
      rw [if_neg hc]
      intro hmem
      exact hc (List.elem_eq_true_of_mem hmem)

/-- The fresh-name search succeeds: because the candidates are pairwise
distinct, they cannot all be among the `used` names within
`used.length + 1` attempts. -/
theorem genCopyName_not_mem (used : List String) (base : String) :
    genCopyName used base ∉ used := by
  rcases genCopyNameAux_spec used base (used.length + 1) 0 with h | h
  · exact h
  · exfalso
    have hsub : (List.range (used.length + 1)).map (copyCandidate base) ⊆ used := by
      intro s hs
      rcases List.mem_map.mp hs with ⟨i, hi, rfl⟩
      have := h i (List.mem_range.mp hi)
      simpa using this
    have hnodup : ((List.range (used.length + 1)).map (copyCandidate base)).Nodup :=
      (List.nodup_range _).map_on (fun i _ j _ hij => copyCandidate_injective base hij)
    have hlen : ((List.range (used.length + 1)).map (copyCandidate base)).length ≤ used.length := by
      calc ((List.range (used.length + 1)).map (copyCandidate base)).length
          = ((List.range (used.length + 1)).map (copyCandidate base)).toFinset.card :=
            (List.toFinset_card_of_nodup hnodup).symm
        _ ≤ used.toFinset.card := Finset.card_le_card (by
            intro x hx
            rw [List.mem_toFinset] at hx ⊢
            exact hsub hx)
        _ ≤ used.length := used.toFinset_card_le
    rw [List.length_map, List.length_range] at hlen
    omega

/-- JS `Set.prototype.delete`: drop the element. -/
def setDelete (s : List String) (x : String) : List String :=
  s.filter (fun y => y != x)

/-- A node whose behavior type is one of the two user-definable kinds; such
nodes are exempt from the built-in-name collision check
(`updateNodeCustomName`, `part_007` line 1074). -/
def isCustomNode (n : CanvasNode) : Bool :=
  n.name == some "CustomAction" || n.name == some "CustomCondition"

/-- Rewrite the `node_name` field of every config group that has one, exactly
as the `for (const configName in node.configValues)` loop of
`updateNodeCustomName` does (`part_007` lines 1152–1158). -/
def updateConfigNodeName (customName : String) (cv : ConfigValues) : ConfigValues :=
  cv.map (fun grp =>
    if (grp.2.find? (fun p => p.1 == "node_name")).isSome then
      (grp.1, grp.2.map (fun p =>
        if p.1 == "node_name" then (p.1, ConfigVal.vStr customName) else p))
    else grp)

/-- The in-place mutation `node.customName = customName` (plus the config
`node_name` rewrite), applied by object identity; identity is modelled by id
equality, which coincides with it whenever node ids are duplicate-free. -/
def applyRename (node : CanvasNode) (customName : String) (n : CanvasNode) : CanvasNode :=
  if n.id == node.id then
    { n with customName := some customName,
             configValues := n.configValues.map (updateConfigNodeName customName) }
  else n

/-- Result of `updateNodeCustomName`: the returned boolean, the error banner
text shown on rejection, and the graph afterwards. -/
structure RenameResult where
  ok : Bool
  reason : Option String
  graph : GraphState
deriving Repr, DecidableEq

/-- The `usedNames` bookkeeping of a committed rename (`part_007` lines
1138–1146): the node's old custom name is deleted if it was set, then the new
name is added if non-empty. -/
def renameUsedNames (g : GraphState) (node : CanvasNode) (customName : String) :
    List String :=
  if customName != ""
  then setAdd (if jsTruthy node.customName
      then setDelete g.usedNames (node.customName.getD "") else g.usedNames) customName
  else (if jsTruthy node.customName
      then setDelete g.usedNames (node.customName.getD "") else g.usedNames)

/-- CanvasManager.updateNodeCustomName (`part_007` lines 1067–1163).  A
non-empty new name is rejected when it collides with a catalog built-in name
(unless the node is a custom kind) or with a name in `usedNames` other than
the node's own current name; otherwise `usedNames` is updated and the node is
mutated in place.  `builtinNames` stands for the names collected from the
`nodeTypes` catalog, which is not part of the sources.  The trailing
`saveState`/`draw` calls do not touch the graph fields modelled here. -/
def updateNodeCustomName (builtinNames : List String) (g : GraphState)
    (nodeId customName : String) : RenameResult :=
  match g.nodes.find? (fun n => n.id == nodeId) with
  | none => ⟨false, none, g⟩
  | some node =>
    if customName != "" && !isCustomNode node && builtinNames.contains customName then
      ⟨false, some "This name conflicts with a built-in node type", g⟩
    else if customName != "" && g.usedNames.contains customName
        && customName != node.customName.getD "" then
      ⟨false, some "This name is already in use", g⟩
    else
      ⟨true, none,
        { nodes := g.nodes.map (applyRename node customName),
          connections := g.connections.map (fun c =>
            ⟨applyRename node customName c.fromNode,
             applyRename node customName c.toNode⟩),
          usedNames := renameUsedNames g node customName }⟩

/-- One iteration of the duplicate loop of `handleKeyDown` (`part_007` lines
896–919): the selected node is copied with a fresh id and a +50 x-offset, a
node carrying a custom name gets the first free `_copy` variant (which is
immediately added to `usedNames`), and the original-to-duplicate pair is
recorded in the node map. -/
def duplicateOne (gen : Nat → String)
    (st : GraphState × List (CanvasNode × CanvasNode))
    (p : Nat × CanvasNode) : GraphState × List (CanvasNode × CanvasNode) :=
  let g := st.1
  let node := p.2
  let dup0 : CanvasNode := { node with id := gen p.1, x := node.x + 50 }
  if jsTruthy dup0.customName then
    let newName := genCopyName g.usedNames (dup0.customName.getD "")
    let dup := { dup0 with customName := some newName }
    ({ g with nodes := g.nodes ++ [dup], usedNames := setAdd g.usedNames newName },
     st.2 ++ [(node, dup)])
  else
    ({ g with nodes := g.nodes ++ [dup0] }, st.2 ++ [(node, dup0)])

/-- The duplicate branch of `handleKeyDown` (`part_007` lines 889–942): all
selected nodes are duplicated in order, then every selected connection whose
two endpoints were both duplicated is recreated between the duplicates.  (The
selection-set rewrite at the end only touches transient UI state.) -/
def duplicateSelected (gen : Nat → String) (g : GraphState)
    (selNodes : List CanvasNode) (selConns : List Connection) : GraphState :=
  let st := selNodes.enum.foldl (duplicateOne gen) (g, [])
  let dupConns := selConns.filterMap (fun c =>
    match st.2.find? (fun q => q.1 == c.fromNode),
          st.2.find? (fun q => q.1 == c.toNode) with
    | some f, some t => some (⟨f.2, t.2⟩ : Connection)
    | _, _ => none)
  { st.1 with connections := st.1.connections ++ dupConns }

/-- The `SubtreeTemplate` interface: the recorded nodes and connections of a
subtree plus its root id. -/
structure SubtreeTemplate where
  nodes : List CanvasNode
  connections : List Connection
  rootId : String
deriving Repr, DecidableEq

/-- CanvasManager.cloneSubtree (`part_007` lines 1864–1909): every template
node is re-created with a fresh id, a blank custom name and a (+50, +50)
offset, and the template connections are re-created between the new nodes via
the old-id map.  (The returned root node and the exception thrown when it is
missing do not touch the graph and are not modelled.) -/
def cloneSubtree (gen : Nat → String) (g : GraphState) (tmpl : SubtreeTemplate) : GraphState :=
  let idMap := tmpl.nodes.enum.map (fun p =>
    (p.2.id, { p.2 with id := gen p.1, customName := (none : Option String),
                        x := p.2.x + 50, y := p.2.y + 50 }))
  let newNodes := idMap.map (·.2)
  let newConns := tmpl.connections.filterMap (fun c =>
    match mapLookupNode idMap c.fromNode.id, mapLookupNode idMap c.toNode.id with
    | some f, some t => some (⟨f, t⟩ : Connection)
    | _, _ => none)
  { g with nodes := g.nodes ++ newNodes, connections := g.connections ++ newConns }

/-- Specification section-3 name invariant, uniqueness half: any two nodes
carrying non-empty custom names carry different ones. -/
def namesUnique (nodes : List CanvasNode) : Prop :=
  nodes.Pairwise (fun a b => jsTruthy a.customName → jsTruthy b.customName →
    a.customName.getD "" ≠ b.customName.getD "")

/-- Bookkeeping coherence: every non-empty custom name in the node array is
registered in `usedNames`. -/
def namesCoherent (g : GraphState) : Prop :=
  ∀ n ∈ g.nodes, jsTruthy n.customName → n.customName.getD "" ∈ g.usedNames

/-- Specification section-3 name invariant, reserved-name half: a non-custom
node's custom name never equals a built-in catalog name. -/
def builtinFree (builtinNames : List String) (g : GraphState) : Prop :=
  ∀ n ∈ g.nodes, jsTruthy n.customName → isCustomNode n = false →
    n.customName.getD "" ∉ builtinNames

/-- The full custom-name invariant of the specification, together with the
`usedNames` coherence that makes the validation in `updateNodeCustomName`
meaningful. -/
def NamesInv (builtinNames : List String) (g : GraphState) : Prop :=
  namesUnique g.nodes ∧ namesCoherent g ∧ builtinFree builtinNames g

instance (ns : List CanvasNode) : Decidable (namesUnique ns) := by
  unfold namesUnique; infer_instance

instance (g : GraphState) : Decidable (namesCoherent g) := by
  unfold namesCoherent; infer_instance

instance (b : List String) (g : GraphState) : Decidable (builtinFree b g) := by
  unfold builtinFree; infer_instance

instance (b : List String) (g : GraphState) : Decidable (NamesInv b g) := by
  unfold NamesInv; infer_instance

theorem mem_setAdd_self (s : List String) (x : String) : x ∈ setAdd s x := by
  unfold setAdd
  split
  · exact List.mem_of_elem_eq_true (by assumption)
  · exact List.mem_append.mpr (Or.inr (List.mem_singleton.mpr rfl))

theorem mem_setAdd_of_mem {s : List String} {y : String} (x : String) (h : y ∈ s) :
    y ∈ setAdd s x := by
  unfold setAdd
  split
  · exact h
  · exact List.mem_append.mpr (Or.inl h)

theorem mem_setDelete {s : List String} {x y : String} :
    y ∈ setDelete s x ↔ y ∈ s ∧ y ≠ x := by
  unfold setDelete
  rw [List.mem_filter]
  constructor
  · rintro ⟨h1, h2⟩
    exact ⟨h1, by simpa using h2⟩
  · rintro ⟨h1, h2⟩
    exact ⟨h1, by simpa using h2⟩

theorem namesUnique_of_none :
    ∀ (l : List CanvasNode), (∀ n ∈ l, n.customName = none) → namesUnique l := by
  intro l
  induction l with
  | nil => intro _; exact List.Pairwise.nil
  | cons a t ih =>
    intro h
    refine List.Pairwise.cons ?_ (ih (fun n hn => h n (List.mem_cons_of_mem a hn)))
    intro b _ hta
    exfalso
    rw [h a (List.mem_cons_self a t)] at hta
    exact absurd hta (by decide)

theorem pairwise_append_of_none {l l' : List CanvasNode}
    (hu : namesUnique l) (hnone : ∀ n ∈ l', n.customName = none) :
    namesUnique (l ++ l') := by
  rw [namesUnique, List.pairwise_append]
  refine ⟨hu, namesUnique_of_none l' hnone, ?_⟩
  intro a _ n hn _ htn
  exfalso
  rw [hnone n hn] at htn
  exact absurd htn (by decide)

/-- Template instantiation preserves the name invariant: every clone gets a
blank custom name. -/
theorem cloneSubtree_namesInv (b : List String) (gen : Nat → String) (g : GraphState)
    (tmpl : SubtreeTemplate) (hinv : NamesInv b g) :
    NamesInv b (cloneSubtree gen g tmpl) := by
  obtain ⟨hu, hc, hb⟩ := hinv
  have hnone : ∀ n ∈ (tmpl.nodes.enum.map (fun p =>
      (p.2.id, { p.2 with id := gen p.1, customName := (none : Option String),
                          x := p.2.x + 50, y := p.2.y + 50 }))).map (fun q => q.2),
      n.customName = none := by
    intro n hn
    rw [List.map_map] at hn
    rcases List.mem_map.mp hn with ⟨p, _, rfl⟩
    rfl
  refine ⟨pairwise_append_of_none hu hnone, ?_, ?_⟩
  · intro n hn ht
    rcases List.mem_append.mp hn with h | h
    · exact hc n h ht
    · exfalso
      rw [hnone n h] at ht
      exact absurd ht (by decide)
  · intro n hn ht hcust
    rcases List.mem_append.mp hn with h | h
    · exact hb n h ht hcust
    · exfalso
      rw [hnone n h] at ht
      exact absurd ht (by decide)

theorem genCopyName_ne_empty (used : List String) (base : String) :
    genCopyName used base ≠ "" := by
  rcases genCopyNameAux_shape used base (used.length + 1) 0 with ⟨i, hi⟩
  rw [genCopyName, hi]
  exact copyCandidate_ne_empty base i

/-- Duplicating one node preserves name uniqueness and coherence: the copied
name is replaced by a `_copy` variant that is fresh with respect to
`usedNames`, hence (by coherence) distinct from every existing custom name. -/
theorem duplicateOne_inv (gen : Nat → String)
    (st : GraphState × List (CanvasNode × CanvasNode)) (p : Nat × CanvasNode)
    (hu : namesUnique st.1.nodes) (hc : namesCoherent st.1) :
    namesUnique (duplicateOne gen st p).1.nodes ∧ namesCoherent (duplicateOne gen st p).1 := by
  unfold duplicateOne
  by_cases ht : jsTruthy p.2.customName = true
  · have htd : jsTruthy ({ p.2 with id := gen p.1, x := p.2.x + 50 } : CanvasNode).customName = true := ht
    rw [if_pos htd]
    set base := ({ p.2 with id := gen p.1, x := p.2.x + 50 } : CanvasNode).customName.getD "" with hbase
    set newName := genCopyName st.1.usedNames base with hnew
    have hfresh : newName ∉ st.1.usedNames := genCopyName_not_mem _ _
    have hne : newName ≠ "" := genCopyName_ne_empty _ _
    constructor
    · show List.Pairwise _ (st.1.nodes ++ [_])
      rw [List.pairwise_append]
      refine ⟨hu, List.pairwise_singleton _ _, ?_⟩
      intro a ha n hn hta htn
      rw [List.mem_singleton] at hn
      subst hn
      show a.customName.getD "" ≠ newName
      intro heq
      apply hfresh
      rw [← heq]
      exact hc a ha hta
    · intro n hn htn
      show n.customName.getD "" ∈ setAdd st.1.usedNames newName
      rcases List.mem_append.mp hn with h | h
      · exact mem_setAdd_of_mem _ (hc n h htn)
      · rw [List.mem_singleton] at h
        subst h
        show newName ∈ setAdd st.1.usedNames newName
        exact mem_setAdd_self _ _
  · have htd : ¬ jsTruthy ({ p.2 with id := gen p.1, x := p.2.x + 50 } : CanvasNode).customName = true := ht
    rw [if_neg htd]
    constructor
    · show List.Pairwise _ (st.1.nodes ++ [_])
      rw [List.pairwise_append]
      refine ⟨hu, List.pairwise_singleton _ _, ?_⟩
      intro a ha n hn hta htn
      rw [List.mem_singleton] at hn
      subst hn
      exact absurd htn (by simpa using ht)
    · intro n hn htn
      rcases List.mem_append.mp hn with h | h
      · exact hc n h htn
      · rw [List.mem_singleton] at h
        subst h
        exact absurd htn (by simpa using ht)

theorem foldl_duplicateOne_inv (gen : Nat → String) :
    ∀ (ps : List (Nat × CanvasNode)) (st : GraphState × List (CanvasNode × CanvasNode)),
      namesUnique st.1.nodes → namesCoherent st.1 →
      namesUnique (ps.foldl (duplicateOne gen) st).1.nodes ∧
      namesCoherent (ps.foldl (duplicateOne gen) st).1 := by
  intro ps
  induction ps with
  | nil => intro st hu hc; exact ⟨hu, hc⟩
  | cons p t ih =>
    intro st hu hc
    have h := duplicateOne_inv gen st p hu hc
    exact ih (duplicateOne gen st p) h.1 h.2

theorem duplicateSelected_inv (gen : Nat → String) (g : GraphState)
    (selNodes : List CanvasNode) (selConns : List Connection)
    (hu : namesUnique g.nodes) (hc : namesCoherent g) :
    namesUnique (duplicateSelected gen g selNodes selConns).nodes ∧
    namesCoherent (duplicateSelected gen g selNodes selConns) := by
  have h := foldl_duplicateOne_inv gen selNodes.enum (g, []) hu hc
  exact ⟨h.1, fun n hn ht => h.2 n hn ht⟩

theorem mem_renameUsedNames_of {g : GraphState} {node : CanvasNode} {customName y : String}
    (hy : y ∈ g.usedNames)
    (hne : jsTruthy node.customName = true → y ≠ node.customName.getD "") :
    y ∈ renameUsedNames g node customName := by
  unfold renameUsedNames
  have h1 : y ∈ (if jsTruthy node.customName
      then setDelete g.usedNames (node.customName.getD "") else g.usedNames) := by
    split
    · exact mem_setDelete.mpr ⟨hy, hne (by assumption)⟩
    · exact hy
  split
  · exact mem_setAdd_of_mem _ h1
  · exact h1

theorem customName_mem_renameUsedNames {g : GraphState} {node : CanvasNode}
    {customName : String} (hne : customName ≠ "") :
    customName ∈ renameUsedNames g node customName := by
  unfold renameUsedNames
  have hb : (customName != "") = true := by simpa using hne
  rw [if_pos hb]
  exact mem_setAdd_self _ _

/-- A rejected rename leaves the graph untouched: both rejection paths return
before any mutation. -/
theorem updateNodeCustomName_fail_unchanged (b : List String) (g : GraphState)
    (nodeId customName : String)
    (h : (updateNodeCustomName b g nodeId customName).ok = false) :
    (updateNodeCustomName b g nodeId customName).graph = g := by
  unfold updateNodeCustomName at h ⊢
  cases hf : g.nodes.find? (fun n => n.id == nodeId) with
  | none => simp only [hf]
  | some node =>
    simp only [hf] at h ⊢
    split_ifs at h ⊢ <;> rfl

/-- A rename preserves the full name invariant, assuming duplicate-free node
ids (the object-identity model).  Key cases: a non-empty new name either is
not in `usedNames` (then it differs from every registered name) or equals the
node's own previous name; the built-in check covers exactly the non-custom
nodes. -/
theorem updateNodeCustomName_namesInv (b : List String) (g : GraphState)
    (nodeId customName : String)
    (hids : (g.nodes.map CanvasNode.id).Nodup)
    (hinv : NamesInv b g) :
    NamesInv b (updateNodeCustomName b g nodeId customName).graph := by
  obtain ⟨hu, hc, hbf⟩ := hinv
  unfold updateNodeCustomName
  cases hf : g.nodes.find? (fun n => n.id == nodeId) with
  | none => simp only [hf]; exact ⟨hu, hc, hbf⟩
  | some node =>
    simp only [hf]
    have hnodemem : node ∈ g.nodes := List.mem_of_find?_eq_some hf
    split_ifs with h1 h2
    · exact ⟨hu, hc, hbf⟩
    · exact ⟨hu, hc, hbf⟩
    · -- success branch
      have hb1 : customName ≠ "" → isCustomNode node = false → customName ∉ b := by
        intro hne hcu hmem
        apply h1
        simp only [Bool.and_eq_true, bne_iff_ne, Bool.not_eq_true']
        exact ⟨⟨hne, hcu⟩, List.elem_eq_true_of_mem hmem⟩
      have hb2 : customName ≠ "" → customName ∈ g.usedNames →
          customName = node.customName.getD "" := by
        intro hne hmem
        by_contra hcn
        apply h2
        simp only [Bool.and_eq_true, bne_iff_ne]
        exact ⟨⟨hne, List.elem_eq_true_of_mem hmem⟩, hcn⟩
      have hsymm : Symmetric (fun a c : CanvasNode =>
          jsTruthy a.customName → jsTruthy c.customName →
          a.customName.getD "" ≠ c.customName.getD "") := by
        intro a c hR htc hta
        exact (hR hta htc).symm
      have hUpw : g.nodes.Pairwise (fun a c =>
          (jsTruthy a.customName → jsTruthy c.customName →
            a.customName.getD "" ≠ c.customName.getD "") ∧ a.id ≠ c.id) :=
        hu.and (List.pairwise_map.mp hids)
      refine ⟨?_, ?_, ?_⟩
      · show namesUnique (g.nodes.map (applyRename node customName))
        rw [namesUnique, List.pairwise_map]
        refine hUpw.imp_of_mem ?_
        intro a c ha hcm hr
        obtain ⟨hUac, hidne⟩ := hr
        by_cases hA : (a.id == node.id) = true
        · have haeq : a = node := List.inj_on_of_nodup_map hids ha hnodemem (by simpa using hA)
          by_cases hB : (c.id == node.id) = true
          · exact absurd ((beq_iff_eq.mp hA).trans (beq_iff_eq.mp hB).symm) hidne
          · subst haeq
            have hfa : applyRename a customName a =
                { a with customName := some customName,
                         configValues := a.configValues.map (updateConfigNodeName customName) } := by
              unfold applyRename
              rw [if_pos (beq_self_eq_true _)]
            have hfc : applyRename a customName c = c := by
              unfold applyRename
              rw [if_neg (by simpa using hB)]
            rw [hfa, hfc]
            intro hta htc
            show customName ≠ c.customName.getD ""
            have hcne : customName ≠ "" := by simpa [jsTruthy] using hta
            by_cases hmem : customName ∈ g.usedNames
            · have hold : customName = a.customName.getD "" := hb2 hcne hmem
              have htnode : jsTruthy a.customName = true := by
                simp only [jsTruthy, ← hold]
                simpa using hcne
              intro heq
              exact hUac htnode htc (by rw [← hold]; exact heq)
            · intro heq
              apply hmem
              rw [heq]
              exact hc c hcm htc
        · by_cases hB : (c.id == node.id) = true
          · have hceq : c = node := List.inj_on_of_nodup_map hids hcm hnodemem (by simpa using hB)
            subst hceq
            have hfa : applyRename c customName a = a := by
              unfold applyRename
              rw [if_neg (by simpa using hA)]
            have hfc : applyRename c customName c =
                { c with customName := some customName,
                         configValues := c.configValues.map (updateConfigNodeName customName) } := by
              unfold applyRename
              rw [if_pos (beq_self_eq_true _)]
            rw [hfa, hfc]
            intro hta htc
            show a.customName.getD "" ≠ customName
            have hcne : customName ≠ "" := by simpa [jsTruthy] using htc
            by_cases hmem : customName ∈ g.usedNames
            · have hold : customName = c.customName.getD "" := hb2 hcne hmem
              have htnode : jsTruthy c.customName = true := by
                simp only [jsTruthy, ← hold]
                simpa using hcne
              intro heq
              exact hUac hta htnode (by rw [← hold]; exact heq)
            · intro heq
              apply hmem
              rw [← heq]
              exact hc a ha hta
          · have hfa : applyRename node customName a = a := by
              unfold applyRename
              rw [if_neg (by simpa using hA)]
            have hfc : applyRename node customName c = c := by
              unfold applyRename
              rw [if_neg (by simpa using hB)]
            rw [hfa, hfc]
            exact hUac
      · intro n' hn' htn'
        rcases List.mem_map.mp hn' with ⟨n, hn, rfl⟩
        by_cases hA : (n.id == node.id) = true
        · have hcn : (applyRename node customName n).customName = some customName := by
            unfold applyRename
            rw [if_pos hA]
          rw [hcn] at htn' ⊢
          have hcne : customName ≠ "" := by simpa [jsTruthy] using htn'
          show customName ∈ renameUsedNames g node customName
          exact customName_mem_renameUsedNames hcne
        · have heqn : applyRename node customName n = n := by
            unfold applyRename
            rw [if_neg (by simpa using hA)]
          rw [heqn] at htn' ⊢
          show n.customName.getD "" ∈ renameUsedNames g node customName
          apply mem_renameUsedNames_of (hc n hn htn')
          intro htnode heq
          have hne : n ≠ node := by
            intro h
            rw [h] at hA
            exact hA (beq_self_eq_true _)
          exact (hu.forall hsymm hn hnodemem hne) htn' htnode heq
      · intro n' hn' htn' hcust
        rcases List.mem_map.mp hn' with ⟨n, hn, rfl⟩
        by_cases hA : (n.id == node.id) = true
        · have haeq : n = node := List.inj_on_of_nodup_map hids hn hnodemem (by simpa using hA)
          have hcn : (applyRename node customName n).customName = some customName := by
            unfold applyRename
            rw [if_pos hA]
          have hname : (applyRename node customName n).name = n.name := by
            unfold applyRename
            rw [if_pos hA]
          rw [hcn] at htn' ⊢
          have hcne : customName ≠ "" := by simpa [jsTruthy] using htn'
          show customName ∉ b
          apply hb1 hcne
          have hic : isCustomNode (applyRename node customName n) = isCustomNode n := by
            unfold isCustomNode
            rw [hname]
          rw [hic, haeq] at hcust
          exact hcust
        · have heqn : applyRename node customName n = n := by
            unfold applyRename
            rw [if_neg (by simpa using hA)]
          rw [heqn] at htn' hcust ⊢
          exact hbf n hn htn' hcust


/-- C9: the name-handling operations that the code does validate — rename via
`updateNodeCustomName`, duplication via the `_copy` fresh-name search, and
template instantiation via `cloneSubtree` — preserve the custom-name
invariant: a violating rename is rejected with a reason and leaves the graph
unchanged; a committed rename keeps every non-empty custom name unique,
registered in `usedNames`, and clear of built-in names on non-custom nodes;
duplication keeps names unique and registered; and clones carry no custom
name at all.  (`pasteNodes` and `loadTree`, by contrast, copy custom names
verbatim with no check, and the duplicate loop never re-checks built-in
names — see the counterexample.) -/
theorem c9_rename_duplicate_clone_preserve_names
    (b : List String) (g : GraphState) (nodeId customName : String)
    (gen : Nat → String) (selNodes : List CanvasNode) (selConns : List Connection)
    (tmpl : SubtreeTemplate)
    (hids : (g.nodes.map CanvasNode.id).Nodup)
    (hinv : NamesInv b g) :
    ((updateNodeCustomName b g nodeId customName).ok = false →
      (updateNodeCustomName b g nodeId customName).graph = g) ∧
    NamesInv b (updateNodeCustomName b g nodeId customName).graph ∧
    (namesUnique (duplicateSelected gen g selNodes selConns).nodes ∧
      namesCoherent (duplicateSelected gen g selNodes selConns)) ∧
    NamesInv b (cloneSubtree gen g tmpl) :=
  ⟨updateNodeCustomName_fail_unchanged b g nodeId customName,
   updateNodeCustomName_namesInv b g nodeId customName hids hinv,
   duplicateSelected_inv gen g selNodes selConns hinv.1 hinv.2.1,
   cloneSubtree_namesInv b gen g tmpl hinv⟩

/-- Built-in catalog names used by the C9 witness. -/
def c9Builtins : List String := ["Sequence", "GenerateAction"]

/-- An action node carrying the custom name "Walk". -/
def c9WalkNode : CanvasNode :=
  ⟨"w", "action", some "GenerateAction", some "Walk", none, 0, 0, 150, 60, false,
    some [], some [], none, false, none, none, none⟩

/-- A one-node graph whose custom name "Walk" is registered in `usedNames`. -/
def c9Graph : GraphState := ⟨[c9WalkNode], [], ["Walk"]⟩

/-- Witness for C9 at a concrete graph: renaming the "Walk" node to "Run",
duplicating it, and instantiating it as a template. -/
theorem c9_rename_duplicate_clone_preserve_names_witness :
    ((c9Graph.nodes.map CanvasNode.id).Nodup ∧ NamesInv c9Builtins c9Graph) ∧
    (((updateNodeCustomName c9Builtins c9Graph "w" "Run").ok = false →
        (updateNodeCustomName c9Builtins c9Graph "w" "Run").graph = c9Graph) ∧
      NamesInv c9Builtins (updateNodeCustomName c9Builtins c9Graph "w" "Run").graph ∧
      (namesUnique (duplicateSelected genF c9Graph [c9WalkNode] []).nodes ∧
        namesCoherent (duplicateSelected genF c9Graph [c9WalkNode] [])) ∧
      NamesInv c9Builtins (cloneSubtree genF c9Graph ⟨[c9WalkNode], [], "w"⟩)) :=
  ⟨⟨by decide, by decide⟩,
   c9_rename_duplicate_clone_preserve_names c9Builtins c9Graph "w" "Run" genF
     [c9WalkNode] [] ⟨[c9WalkNode], [], "w"⟩ (by decide) (by decide)⟩

/-- Clipboard payload holding a copy of the "Walk" node. -/
def c9PasteData : PasteData := ⟨[c9WalkNode], []⟩

/-- C9 (counterexample): `pasteNodes` (`part_007` lines 2092–2123) copies
custom names verbatim and never consults or updates `usedNames`, so pasting a
copied node whose custom name "Walk" is already in use yields two nodes named
"Walk" — the name invariant held before the paste and its uniqueness half is
broken after it.  (`loadTree` likewise registers the file's custom names
without checking them for duplicates.) -/
theorem c9_counterexample :
    NamesInv c9Builtins c9Graph ∧
    ¬ namesUnique (pasteNodes c9Graph c9PasteData genF).nodes := by
  constructor
  · decide
  · decide
